import Mathlib

/-!
Verification of the backtest engine, indicator computation, parameter space
generator and optimizer loop of the binance-futures-strategy-optimizer
repository (src/backtest.js).

The JavaScript source is embedded shallowly:
* prices, funds and oscillator values are rationals (`ℚ`),
* timestamps are integers (`ℤ`, milliseconds),
* the mutable `BacktestEngine` object becomes an explicit `EngineState`
  record threaded through a step function,
* a run that JS terminates with `return null` (liquidation / drawdown
  invalidation) is an `Option` value `none`,
* the correlated nullable position fields (`positionAmt`, `positionFund`,
  `openTimestamp`, `openPrice`, `liquidationPrice`, `positionMaxPrice`,
  `positionMinPrice`), which the source sets and clears together and reads
  only while `positionType === "LONG"`, are collected into one
  `Option Position` field.
-/

namespace Backtest

/-- Configuration constants read by the engine (the `CONFIG` object of
src/backtest.js restricted to the fields the core algorithms use). -/
structure Config where
  INITIAL_FUNDING : ℚ
  FEE : ℚ
  FUNDING_RATE : ℚ
  FUNDING_PERIOD_MS : ℤ
  HOUR_MS : ℚ
  ORDER_AMOUNT_PERCENT : ℚ
  deriving Repr, DecidableEq

/-- The concrete `CONFIG` values of src/backtest.js (lines 18-38) that the
core algorithms read. -/
def CONFIG : Config :=
  { INITIAL_FUNDING := 100
    FEE := 5 / 10000
    FUNDING_RATE := 1 / 10000
    FUNDING_PERIOD_MS := 8 * 1000 * 60 * 60
    HOUR_MS := 1000 * 60 * 60
    ORDER_AMOUNT_PERCENT := 100 }

/-- One OHLCV candle (the objects produced by `getKlineData`). -/
structure Kline where
  openPrice : ℚ
  highPrice : ℚ
  lowPrice : ℚ
  closePrice : ℚ
  volume : ℚ
  openTime : ℤ
  closeTime : ℤ
  deriving Repr, DecidableEq

/-!
## Indicator computation (`computeRSI`, src/backtest.js lines 240-299)

The JS function takes the close-price series and a collection of periods and
returns a map from period to series; each per-period series depends only on
`(values, period)`, so it is embedded as a single-period function.  The JS
`null` prefix entries become `Option.none`.  The source is only ever called
with positive integer periods (the configured ranges start at `min ≥ 1`);
for `period = 0` the JS main loop would read `changes[-1]` (undefined) and
produce NaN junk, so the embedding is stated for `1 ≤ period` in all
theorems.
-/

/-- One Wilder smoothing step of the main RSI loop (src/backtest.js lines
280-292): from the running `(gain, loss)` pair and the current bar-to-bar
change, compute the next pair
`avg = (avg * (period - 1) + currentComponent) / period`. -/
def wilderStep (period : ℕ) (gl : ℚ × ℚ) (c : ℚ) : ℚ × ℚ :=
  (((gl.1 * ((period : ℚ) - 1) + (if c > 0 then c else 0)) / (period : ℚ)),
   ((gl.2 * ((period : ℚ) - 1) + (if c < 0 then -c else 0)) / (period : ℚ)))

/-- The oscillator value written by the loop body: `100` when the smoothed
loss is zero, otherwise `100 - 100 / (1 + gain / loss)` (src/backtest.js
lines 288-292). -/
def rsiFromAvg (gl : ℚ × ℚ) : ℚ :=
  if gl.2 = 0 then 100 else 100 - 100 / (1 + gl.1 / gl.2)

/-- The sequence of smoothed `(gain, loss)` pairs produced by the main RSI
loop, one per remaining change, starting from the seed pair. -/
def wilderAvgs (period : ℕ) (gl : ℚ × ℚ) : List ℚ → List (ℚ × ℚ)
  | [] => []
  | c :: cs =>
    let gl' := wilderStep period gl c
    gl' :: wilderAvgs period gl' cs

/-- The non-null tail of the RSI series: the main loop of `computeRSI`
(src/backtest.js lines 280-293), emitting one value per remaining change. -/
def rsiLoop (period : ℕ) (gl : ℚ × ℚ) : List ℚ → List (Option ℚ)
  | [] => []
  | c :: cs =>
    let gl' := wilderStep period gl c
    some (rsiFromAvg gl') :: rsiLoop period gl' cs

/-- The consecutive close-to-close changes (src/backtest.js lines 250-254):
`changes[i] = values[i+1] - values[i]`. -/
def changesOf (values : List ℚ) : List ℚ :=
  List.zipWith (fun b a => b - a) values.tail values

/-- Seed accumulation (src/backtest.js lines 263-273): the sums (not means)
of the positive parts and of the magnitudes of the negative parts of the
given changes. -/
def seedGainLoss : List ℚ → ℚ × ℚ
  | [] => (0, 0)
  | c :: cs =>
    let gl := seedGainLoss cs
    (if c > 0 then gl.1 + c else gl.1, if c > 0 then gl.2 else gl.2 - c)

/-- Embedding of `computeRSI` (src/backtest.js lines 240-299) for one
period: all-null when fewer than 2 closes exist, all-null when fewer than
`period + 1` closes exist, otherwise `period` leading nulls followed by the
main-loop values.  The main loop at index `i ≥ period` consumes
`changes[i-1]`, i.e. the changes from index `period - 1` on; the seed
consumed `changes[0..period-1]`. -/
def computeRSI (values : List ℚ) (period : ℕ) : List (Option ℚ) :=
  if values.length < 2 then List.replicate values.length none
  else if values.length < period + 1 then List.replicate values.length none
  else
    List.replicate period none ++
      rsiLoop period (seedGainLoss ((changesOf values).take period))
        ((changesOf values).drop (period - 1))

theorem length_changesOf (values : List ℚ) :
    (changesOf values).length = values.length - 1 := by
  simp [changesOf, List.length_zipWith]

theorem length_rsiLoop (period : ℕ) (gl : ℚ × ℚ) (cs : List ℚ) :
    (rsiLoop period gl cs).length = cs.length := by
  induction cs generalizing gl with
  | nil => rfl
  | cons c cs ih => simp [rsiLoop, ih]

theorem rsiLoop_mem_isSome (period : ℕ) (gl : ℚ × ℚ) (cs : List ℚ) :
    ∀ v ∈ rsiLoop period gl cs, v.isSome := by
  induction cs generalizing gl with
  | nil => intro v hv; simp [rsiLoop] at hv
  | cons c cs ih =>
    intro v hv
    simp only [rsiLoop, List.mem_cons] at hv
    rcases hv with h | h
    · simp [h]
    · exact ih _ v h

theorem length_computeRSI (values : List ℚ) (period : ℕ) (hp : 1 ≤ period) :
    (computeRSI values period).length = values.length := by
  unfold computeRSI
  split
  · simp
  · split
    · simp
    · simp only [List.length_append, List.length_replicate, length_rsiLoop,
        List.length_drop, length_changesOf]
      omega

/-- Modelled from the spec: the variant of `computeRSI` the spec describes,
with the averages "seeded from the plain mean of the first period changes"
(spec §4.1 and claim C5) instead of the plain sums the source accumulates;
everything else is identical to `computeRSI`. -/
def computeRSImeanSeeded (values : List ℚ) (period : ℕ) : List (Option ℚ) :=
  if values.length < 2 then List.replicate values.length none
  else if values.length < period + 1 then List.replicate values.length none
  else
    List.replicate period none ++
      rsiLoop period
        ((seedGainLoss ((changesOf values).take period)).1 / (period : ℚ),
         (seedGainLoss ((changesOf values).take period)).2 / (period : ℚ))
        ((changesOf values).drop (period - 1))

/-- The smoothed `(gain, loss)` pairs aligned index-for-index with
`computeRSI`: `none` exactly where the oscillator series is `none`. -/
def rsiAvgSeries (values : List ℚ) (period : ℕ) : List (Option (ℚ × ℚ)) :=
  if values.length < 2 then List.replicate values.length none
  else if values.length < period + 1 then List.replicate values.length none
  else
    List.replicate period none ++
      (wilderAvgs period (seedGainLoss ((changesOf values).take period))
        ((changesOf values).drop (period - 1))).map some

theorem rsiLoop_eq_map_wilderAvgs (period : ℕ) (gl : ℚ × ℚ) (cs : List ℚ) :
    rsiLoop period gl cs = (wilderAvgs period gl cs).map (fun a => some (rsiFromAvg a)) := by
  induction cs generalizing gl with
  | nil => rfl
  | cons c cs ih => simp [rsiLoop, wilderAvgs, ih]

theorem computeRSI_eq_map_avgSeries (values : List ℚ) (period : ℕ) :
    computeRSI values period =
      (rsiAvgSeries values period).map (Option.map rsiFromAvg) := by
  unfold computeRSI rsiAvgSeries
  split
  · simp [List.map_replicate]
  · split
    · simp [List.map_replicate]
    · simp [List.map_replicate, rsiLoop_eq_map_wilderAvgs, Function.comp]

theorem seedGainLoss_nonneg (cs : List ℚ) :
    0 ≤ (seedGainLoss cs).1 ∧ 0 ≤ (seedGainLoss cs).2 := by
  induction cs with
  | nil => simp [seedGainLoss]
  | cons c cs ih =>
    simp only [seedGainLoss]
    constructor
    · split <;> [linarith [ih.1]; exact ih.1]
    · split <;> [exact ih.2; linarith [ih.2]]

theorem wilderStep_nonneg (period : ℕ) (hp : 1 ≤ period) (gl : ℚ × ℚ)
    (hg : 0 ≤ gl.1) (hl : 0 ≤ gl.2) (c : ℚ) :
    0 ≤ (wilderStep period gl c).1 ∧ 0 ≤ (wilderStep period gl c).2 := by
  have hp1 : (1 : ℚ) ≤ (period : ℚ) := by exact_mod_cast hp
  have hpos : (0 : ℚ) < (period : ℚ) := by linarith
  have hpm : (0 : ℚ) ≤ (period : ℚ) - 1 := by linarith
  constructor
  · apply div_nonneg _ (le_of_lt hpos)
    have : (0 : ℚ) ≤ if c > 0 then c else 0 := by split <;> linarith
    nlinarith
  · apply div_nonneg _ (le_of_lt hpos)
    have : (0 : ℚ) ≤ if c < 0 then -c else 0 := by split <;> linarith
    nlinarith

theorem wilderAvgs_nonneg (period : ℕ) (hp : 1 ≤ period) (gl : ℚ × ℚ)
    (hg : 0 ≤ gl.1) (hl : 0 ≤ gl.2) (cs : List ℚ) :
    ∀ a ∈ wilderAvgs period gl cs, 0 ≤ a.1 ∧ 0 ≤ a.2 := by
  induction cs generalizing gl with
  | nil => intro a ha; simp [wilderAvgs] at ha
  | cons c cs ih =>
    intro a ha
    simp only [wilderAvgs, List.mem_cons] at ha
    have hstep := wilderStep_nonneg period hp gl hg hl c
    rcases ha with h | h
    · exact h ▸ hstep
    · exact ih _ hstep.1 hstep.2 a h

theorem rsiFromAvg_bounds (gl : ℚ × ℚ) (hg : 0 ≤ gl.1) (hl : 0 ≤ gl.2) :
    0 ≤ rsiFromAvg gl ∧ rsiFromAvg gl ≤ 100 ∧ (gl.2 = 0 ↔ rsiFromAvg gl = 100) := by
  unfold rsiFromAvg
  by_cases h : gl.2 = 0
  · simp [h]
  · have hlpos : 0 < gl.2 := lt_of_le_of_ne hl (Ne.symm h)
    have hratio : 0 ≤ gl.1 / gl.2 := div_nonneg hg (le_of_lt hlpos)
    have h1 : (1 : ℚ) ≤ 1 + gl.1 / gl.2 := by linarith
    have hfrac_pos : (0 : ℚ) < 100 / (1 + gl.1 / gl.2) :=
      div_pos (by norm_num) (by linarith)
    have hfrac_le : 100 / (1 + gl.1 / gl.2) ≤ 100 :=
      div_le_self (by norm_num) h1
    simp only [if_neg h]
    refine ⟨by linarith, by linarith, ?_⟩
    constructor
    · intro hc; exact absurd hc h
    · intro hc; linarith

theorem rsiAvgSeries_mem_nonneg (values : List ℚ) (period : ℕ) (hp : 1 ≤ period)
    (gl : ℚ × ℚ) (hmem : some gl ∈ rsiAvgSeries values period) :
    0 ≤ gl.1 ∧ 0 ≤ gl.2 := by
  unfold rsiAvgSeries at hmem
  split at hmem
  · exact absurd (List.eq_of_mem_replicate hmem) (by simp)
  · split at hmem
    · exact absurd (List.eq_of_mem_replicate hmem) (by simp)
    · rcases List.mem_append.mp hmem with h | h
      · exact absurd (List.eq_of_mem_replicate h) (by simp)
      · obtain ⟨a, ha, hae⟩ := List.mem_map.mp h
        have hag : a = gl := Option.some_injective _ hae
        have hseed := seedGainLoss_nonneg ((changesOf values).take period)
        have := wilderAvgs_nonneg period hp _ hseed.1 hseed.2 _ a ha
        rwa [hag] at this

/-- C4: `computeRSI` returns an all-null series of the input's length when
fewer than 2 closes exist; otherwise, for a period `p ≥ 1`, the returned
series has the input's length with exactly `p` leading nulls (indices
`0..p-1` null, all later indices non-null), or is entirely null when fewer
than `p + 1` closes exist. -/
theorem computeRSI_null_pattern (values : List ℚ) (period : ℕ) (hp : 1 ≤ period) :
    (values.length < 2 → computeRSI values period = List.replicate values.length none) ∧
    (computeRSI values period).length = values.length ∧
    (values.length < period + 1 → computeRSI values period = List.replicate values.length none) ∧
    (period + 1 ≤ values.length →
      ∀ i, i < values.length →
        ∃ v, (computeRSI values period)[i]? = some v ∧ (v.isSome ↔ period ≤ i)) := by
  refine ⟨?_, length_computeRSI values period hp, ?_, ?_⟩
  · intro h
    unfold computeRSI
    simp [h]
  · intro h
    unfold computeRSI
    split
    · rfl
    · simp [h]
  · intro hlen i hi
    have h2 : ¬ values.length < 2 := by omega
    have h3 : ¬ values.length < period + 1 := by omega
    have htail : ((changesOf values).drop (period - 1)).length = values.length - period := by
      simp [length_changesOf]
      omega
    unfold computeRSI
    rw [if_neg h2, if_neg h3]
    by_cases hip : i < period
    · refine ⟨none, ?_, by simp; omega⟩
      rw [List.getElem?_append_left (by simpa using hip)]
      simp [List.getElem?_replicate, hip]
    · push_neg at hip
      have hlt : i - period < (rsiLoop period
          (seedGainLoss ((changesOf values).take period))
          ((changesOf values).drop (period - 1))).length := by
        rw [length_rsiLoop, htail]; omega
      refine ⟨(rsiLoop period (seedGainLoss ((changesOf values).take period))
          ((changesOf values).drop (period - 1))).get ⟨i - period, hlt⟩, ?_, ?_⟩
      · rw [List.getElem?_append_right (by simpa using hip)]
        simp only [List.length_replicate]
        rw [List.getElem?_eq_getElem hlt]
        rfl
      · simp only [iff_true_intro hip, iff_true]
        exact rsiLoop_mem_isSome _ _ _ _ (List.get_mem _ (i - period) hlt)

/-- C4 witness: the null pattern instantiated at the concrete input
`[10, 12, 9]` with period 2. -/
theorem computeRSI_null_pattern_witness :
    1 ≤ 2 ∧
    ((([10, 12, 9] : List ℚ).length < 2 →
        computeRSI [10, 12, 9] 2 = List.replicate ([10, 12, 9] : List ℚ).length none) ∧
      (computeRSI [10, 12, 9] 2).length = ([10, 12, 9] : List ℚ).length ∧
      (([10, 12, 9] : List ℚ).length < 2 + 1 →
        computeRSI [10, 12, 9] 2 = List.replicate ([10, 12, 9] : List ℚ).length none) ∧
      (2 + 1 ≤ ([10, 12, 9] : List ℚ).length →
        ∀ i, i < ([10, 12, 9] : List ℚ).length →
          ∃ v, (computeRSI [10, 12, 9] 2)[i]? = some v ∧ (v.isSome ↔ 2 ≤ i))) :=
  ⟨by norm_num, computeRSI_null_pattern [10, 12, 9] 2 (by norm_num)⟩

/-- C5 counterexample: on closes `[10, 12, 9]` with period 2 the source's
`computeRSI` (sum-seeded Wilder averages) yields `25` at index 2, while the
claim's mean-seeded computation (`computeRSImeanSeeded`) yields `200/11`;
the claim's formula for the non-null values is therefore false as stated. -/
theorem computeRSI_mean_seed_counterexample :
    (computeRSI [10, 12, 9] 2)[2]? = some (some 25) ∧
    (computeRSImeanSeeded [10, 12, 9] 2)[2]? = some (some (200 / 11)) ∧
    (25 : ℚ) ≠ 200 / 11 := by
  refine ⟨?_, ?_, by norm_num⟩
  · norm_num [computeRSI, changesOf, seedGainLoss, rsiLoop, wilderStep, rsiFromAvg,
      List.replicate]
  · norm_num [computeRSImeanSeeded, changesOf, seedGainLoss, rsiLoop, wilderStep,
      rsiFromAvg, List.replicate]

/-- C5 (amended): every non-null value of `computeRSI` lies in `[0, 100]`
and equals `100` exactly when the smoothed average loss at that index is
zero, otherwise it equals `100 - 100/(1 + avgGain/avgLoss)` with the
averages updated by Wilder smoothing `avg = (avg*(period-1) + component)/period`
seeded from the plain sums (not the means) of the gains and of the loss
magnitudes over the first `period` changes. -/
theorem computeRSI_value_characterization (values : List ℚ) (period : ℕ)
    (hp : 1 ≤ period) (i : ℕ) (x : ℚ)
    (hx : (computeRSI values period)[i]? = some (some x)) :
    ∃ gl, (rsiAvgSeries values period)[i]? = some (some gl) ∧
      x = rsiFromAvg gl ∧ 0 ≤ x ∧ x ≤ 100 ∧ (gl.2 = 0 ↔ x = 100) := by
  rw [computeRSI_eq_map_avgSeries, List.getElem?_map] at hx
  obtain ⟨o, ho, hox⟩ : ∃ o, (rsiAvgSeries values period)[i]? = some o ∧
      Option.map rsiFromAvg o = some x := by
    cases hoe : (rsiAvgSeries values period)[i]? with
    | none => rw [hoe] at hx; simp at hx
    | some o => rw [hoe] at hx; exact ⟨o, rfl, by simpa using hx⟩
  obtain ⟨gl, rfl, hglx⟩ : ∃ gl, o = some gl ∧ rsiFromAvg gl = x := by
    cases o with
    | none => simp at hox
    | some gl => exact ⟨gl, rfl, by simpa using hox⟩
  have hmem : some gl ∈ rsiAvgSeries values period := by
    have := List.getElem?_eq_some_iff.mp ho
    obtain ⟨hlt, he⟩ := this
    exact he ▸ List.getElem_mem hlt
  have hnn := rsiAvgSeries_mem_nonneg values period hp gl hmem
  have hb := rsiFromAvg_bounds gl hnn.1 hnn.2
  exact ⟨gl, ho, hglx.symm, hglx ▸ hb.1, hglx ▸ hb.2.1, hglx ▸ hb.2.2⟩

/-- C5 witness: the characterization instantiated at closes `[10, 12, 9]`,
period 2, index 2, value 25. -/
theorem computeRSI_value_characterization_witness :
    (1 ≤ 2 ∧ (computeRSI [10, 12, 9] 2)[2]? = some (some 25)) ∧
    ∃ gl, (rsiAvgSeries [10, 12, 9] 2)[2]? = some (some gl) ∧
      (25 : ℚ) = rsiFromAvg gl ∧ 0 ≤ (25 : ℚ) ∧ (25 : ℚ) ≤ 100 ∧
      (gl.2 = 0 ↔ (25 : ℚ) = 100) :=
  ⟨⟨by norm_num, by norm_num [computeRSI, changesOf, seedGainLoss, rsiLoop,
      wilderStep, rsiFromAvg, List.replicate]⟩,
    computeRSI_value_characterization [10, 12, 9] 2 (by norm_num) 2 25
      (by norm_num [computeRSI, changesOf, seedGainLoss, rsiLoop, wilderStep,
        rsiFromAvg, List.replicate])⟩

/-!
## Backtest engine (class `BacktestEngine`, src/backtest.js lines 392-739)
-/

/-- Position side; the source only ever holds `"NONE"` or `"LONG"`. -/
inductive PosType where
  | NONE
  | LONG
  deriving Repr, DecidableEq

/-- Signal returned by `getSignal` (src/backtest.js lines 440-449). -/
inductive Signal where
  | NONE
  | OPEN_LONG
  | CLOSE_LONG
  deriving Repr, DecidableEq

/-- Strategy parameters handed to the `BacktestEngine` constructor.
Periods are integers (JS numbers used as map keys / loop bounds). -/
structure Params where
  rsiLongPeriod : ℤ
  rsiShortPeriod : ℤ
  rsiLongLevel : ℚ
  rsiShortLevel : ℚ
  leverage : ℚ
  shouldLogResults : Bool
  maxDrawdownThreshold : Option ℚ
  deriving Repr, DecidableEq

/-- JS `x || null` applied to the optional drawdown threshold in the
constructor (src/backtest.js line 402): a present-but-zero threshold is
falsy in JS and collapses to null. -/
def truthyOrNull (x : Option ℚ) : Option ℚ :=
  match x with
  | some q => if q = 0 then none else some q
  | none => none

/-- Constructor normalization of the strategy parameters (src/backtest.js
lines 401-402): `shouldLogResults || false` is the identity on booleans and
`maxDrawdownThreshold || null` is `truthyOrNull`. -/
def mkParams (p : Params) : Params :=
  { p with maxDrawdownThreshold := truthyOrNull p.maxDrawdownThreshold }

/-- The nullable position fields of the engine, which the source sets in
`openLongPosition`, clears together in `resetPosition`, and reads only
while `positionType === "LONG"`. -/
structure Position where
  positionAmt : ℚ
  positionFund : ℚ
  openTimestamp : ℤ
  openPrice : ℚ
  liquidationPrice : ℚ
  positionMaxPrice : ℚ
  positionMinPrice : ℚ
  deriving Repr, DecidableEq

/-- One row pushed onto `this.tradeRecords` by `logTradeResult`
(src/backtest.js lines 508-550). -/
structure TradeRecord where
  finalFund : ℚ
  positionType : PosType
  openPrice : ℚ
  closePrice : ℚ
  pnl : ℚ
  pnlPercent : ℚ
  openTimestamp : ℤ
  closeTimestamp : ℤ
  holdHours : ℚ
  mae : ℚ
  mfe : ℚ
  maeLeveraged : ℚ
  mfeLeveraged : ℚ
  deriving Repr, DecidableEq

/-- The mutable state of a `BacktestEngine` instance (src/backtest.js lines
404-424): `positionType === "LONG"` corresponds to `position = some _`. -/
structure EngineState where
  fund : ℚ
  position : Option Position
  totalTrades : ℕ
  winningTrades : ℕ
  losingTrades : ℕ
  totalPnl : ℚ
  maxDrawdown : ℚ
  peakFund : ℚ
  totalHoldTimeHours : ℚ
  tradeRecords : List TradeRecord
  deriving Repr, DecidableEq

/-- The object returned by `BacktestEngine.getResult` (src/backtest.js
lines 717-738). -/
structure BacktestResult where
  currentPositionType : PosType
  fund : ℚ
  rsiLongPeriod : ℤ
  rsiShortPeriod : ℤ
  rsiLongLevel : ℚ
  rsiShortLevel : ℚ
  leverage : ℚ
  totalTrades : ℕ
  winningTrades : ℕ
  losingTrades : ℕ
  winRate : ℚ
  totalPnl : ℚ
  totalReturn : ℚ
  maxDrawdown : ℚ
  averageHoldTimeHours : ℚ
  tradeRecords : List TradeRecord
  deriving Repr, DecidableEq

/-- Fresh engine state (constructor, src/backtest.js lines 404-424). -/
def initState (cfg : Config) : EngineState :=
  { fund := cfg.INITIAL_FUNDING
    position := none
    totalTrades := 0
    winningTrades := 0
    losingTrades := 0
    totalPnl := 0
    maxDrawdown := 0
    peakFund := cfg.INITIAL_FUNDING
    totalHoldTimeHours := 0
    tradeRecords := [] }

/-- JS `Number(x.toFixed(0))` as an integer: round half away from zero. -/
def toFixedInt (q : ℚ) : ℤ :=
  if 0 ≤ q then ⌊q + 1 / 2⌋ else -⌊-q + 1 / 2⌋

/-- `formatBySize` (src/backtest.js lines 369-372): round to the decimal
precision derived from the exchange step-size string.  The precision
derivation (`getPrecisionBySize`) parses external symbol metadata, so the
embedding takes the resulting decimal-place count directly. -/
def formatBySize (q : ℚ) (precision : ℕ) : ℚ :=
  (toFixedInt (q * 10 ^ precision) : ℚ) / 10 ^ precision

/-- `getSignal` (src/backtest.js lines 440-449): the long-lookback RSI of
the previous bar opens from flat, the short-lookback RSI closes a long. -/
def getSignal (p : Params) (s : EngineState) (preRsiLong preRsiShort : ℚ) : Signal :=
  match s.position with
  | none => if preRsiLong > p.rsiLongLevel then .OPEN_LONG else .NONE
  | some _ => if preRsiShort < p.rsiShortLevel then .CLOSE_LONG else .NONE

/-- `calculateFundingFee` (src/backtest.js lines 451-458, duplicated as
`calculateFundingFeeForClose`, lines 499-506).  Note the JS truthiness
guard `!this.openTimestamp || !closeTimestamp`: a timestamp equal to 0 is
falsy and short-circuits the fee to 0. -/
def calculateFundingFee (cfg : Config) (pos : Position) (closePrice : ℚ)
    (closeTimestamp : ℤ) : ℚ :=
  if pos.openTimestamp = 0 ∨ closeTimestamp = 0 then 0
  else
    let periods : ℤ :=
      ⌊((closeTimestamp - pos.openTimestamp : ℤ) : ℚ) / (cfg.FUNDING_PERIOD_MS : ℚ)⌋
    if periods ≤ 0 then 0
    else pos.positionAmt * closePrice * cfg.FUNDING_RATE * (periods : ℚ)

/-- `openLongPosition` (src/backtest.js lines 460-476). -/
def openLongPosition (cfg : Config) (p : Params) (precision : ℕ)
    (s : EngineState) (k : Kline) : EngineState :=
  let openPrice := k.openPrice
  let orderQuantity := s.fund * (cfg.ORDER_AMOUNT_PERCENT / 100) * p.leverage * (1 / openPrice)
  let positionAmt := formatBySize orderQuantity precision
  let positionValue := positionAmt * openPrice
  let fee := positionValue * cfg.FEE
  let positionFund := positionValue * (1 / p.leverage)
  { s with
    fund := s.fund - (positionFund + fee)
    position := some
      { positionAmt := positionAmt
        positionFund := positionFund
        openTimestamp := k.openTime
        openPrice := openPrice
        liquidationPrice := openPrice * (1 - 1 / p.leverage)
        positionMaxPrice := k.highPrice
        positionMinPrice := k.lowPrice } }

/-- The realized profit and loss computed on close (src/backtest.js lines
481-484 and 628-634): price move on the quantity, minus the close fee on
notional at close, minus the funding fee. -/
def closePnl (cfg : Config) (pos : Position) (closePrice : ℚ)
    (closeTimestamp : ℤ) : ℚ :=
  (closePrice - pos.openPrice) * pos.positionAmt
    - pos.positionAmt * closePrice * cfg.FEE
    - calculateFundingFee cfg pos closePrice closeTimestamp

/-- `logTradeResult` (src/backtest.js lines 508-550), evaluated before the
fund is credited (`finalFund` adds margin and PnL to the not-yet-updated
fund).  The JS truthiness test on the tracked extremes makes MAE/MFE zero
when an extreme is exactly 0. -/
def logTradeResult (cfg : Config) (p : Params) (s : EngineState) (pos : Position)
    (closePrice : ℚ) (closeTimestamp : ℤ) (pnl : ℚ) : TradeRecord :=
  { finalFund := s.fund + pos.positionFund + pnl
    positionType := .LONG
    openPrice := pos.openPrice
    closePrice := closePrice
    pnl := pnl
    pnlPercent := pnl / pos.positionFund
    openTimestamp := pos.openTimestamp
    closeTimestamp := closeTimestamp
    holdHours := ((closeTimestamp - pos.openTimestamp : ℤ) : ℚ) / cfg.HOUR_MS
    mae := if pos.positionMinPrice ≠ 0 ∧ pos.positionMaxPrice ≠ 0 then
        -(pos.openPrice - pos.positionMinPrice) / pos.openPrice else 0
    mfe := if pos.positionMinPrice ≠ 0 ∧ pos.positionMaxPrice ≠ 0 then
        (pos.positionMaxPrice - pos.openPrice) / pos.openPrice else 0
    maeLeveraged := (if pos.positionMinPrice ≠ 0 ∧ pos.positionMaxPrice ≠ 0 then
        -(pos.openPrice - pos.positionMinPrice) / pos.openPrice else 0) * p.leverage
    mfeLeveraged := (if pos.positionMinPrice ≠ 0 ∧ pos.positionMaxPrice ≠ 0 then
        (pos.positionMaxPrice - pos.openPrice) / pos.openPrice else 0) * p.leverage }

/-- `updateTradeStats` (src/backtest.js lines 552-562). -/
def updateTradeStats (cfg : Config) (s : EngineState) (pos : Position)
    (pnl : ℚ) (closeTimestamp : ℤ) : EngineState :=
  { s with
    totalTrades := s.totalTrades + 1
    totalPnl := s.totalPnl + pnl
    winningTrades := if pnl > 0 then s.winningTrades + 1 else s.winningTrades
    losingTrades := if pnl > 0 then s.losingTrades else s.losingTrades + 1
    totalHoldTimeHours := s.totalHoldTimeHours
      + ((closeTimestamp - pos.openTimestamp : ℤ) : ℚ) / cfg.HOUR_MS }

/-- The shared close sequence of `closeLongPosition` (src/backtest.js lines
478-497) and `closePositionAtEnd` (lines 613-647): optional ledger append,
fund credit of margin plus PnL, statistics update, position reset. -/
def closeAt (cfg : Config) (p : Params) (s : EngineState) (pos : Position)
    (closePrice : ℚ) (closeTimestamp : ℤ) : EngineState :=
  let pnl := closePnl cfg pos closePrice closeTimestamp
  let s1 := if p.shouldLogResults then
      { s with tradeRecords :=
          s.tradeRecords ++ [logTradeResult cfg p s pos closePrice closeTimestamp pnl] }
    else s
  let s2 := { s1 with fund := s1.fund + pos.positionFund + pnl }
  let s3 := updateTradeStats cfg s2 pos pnl closeTimestamp
  { s3 with position := none }

/-- Intra-trade extreme update applied to a position from a candle's high
and low (src/backtest.js lines 621-626 and 672-680). -/
def bumpExtremes (pos : Position) (k : Kline) : Position :=
  { pos with
    positionMaxPrice := if k.highPrice > pos.positionMaxPrice then
        k.highPrice else pos.positionMaxPrice
    positionMinPrice := if k.lowPrice < pos.positionMinPrice then
        k.lowPrice else pos.positionMinPrice }

/-- `closeLongPosition` (src/backtest.js lines 478-497): close at the
current candle's open price and open time. -/
def closeLongPosition (cfg : Config) (p : Params) (s : EngineState)
    (pos : Position) (k : Kline) : EngineState :=
  closeAt cfg p s pos k.openPrice k.openTime

/-- `checkLiquidation` (src/backtest.js lines 575-584): a long position is
liquidated when the current bar's low is strictly below the stored
liquidation price. -/
def checkLiquidation (s : EngineState) (curLowPrice : ℚ) : Bool :=
  match s.position with
  | some pos => curLowPrice < pos.liquidationPrice
  | none => false

/-- `updateDrawdown` (src/backtest.js lines 586-605): mark-to-market equity
(fund, plus margin and unrealized PnL while long) either raises the peak or
produces a relative drawdown that raises the maximum when larger. -/
def updateDrawdown (s : EngineState) (curClosePrice : ℚ) : EngineState :=
  let currentTotalFund :=
    match s.position with
    | some pos => s.fund + pos.positionFund + (curClosePrice - pos.openPrice) * pos.positionAmt
    | none => s.fund
  if currentTotalFund > s.peakFund then { s with peakFund := currentTotalFund }
  else
    let drawdown := (s.peakFund - currentTotalFund) / s.peakFund
    if drawdown > s.maxDrawdown then { s with maxDrawdown := drawdown } else s

/-- `isDrawdownExceeded` (src/backtest.js lines 608-611). -/
def isDrawdownExceeded (p : Params) (s : EngineState) : Bool :=
  match p.maxDrawdownThreshold with
  | none => false
  | some t => s.maxDrawdown > t

/-- `closePositionAtEnd` (src/backtest.js lines 613-647): if a position is
still open after the loop, update extremes from the last candle and close
at its close price and close time.  The JS code indexes
`cachedKlineData[dataLength - 1]` unconditionally; with an open position at
least one candle was processed, so the list is nonempty and `getLast?`
yields it. -/
def closePositionAtEnd (cfg : Config) (p : Params) (klines : List Kline)
    (s : EngineState) : EngineState :=
  match s.position with
  | none => s
  | some pos =>
    match klines.getLast? with
    | none => s
    | some lastKline =>
      closeAt cfg p s (bumpExtremes pos lastKline) lastKline.closePrice lastKline.closeTime

/-- `getResult` (src/backtest.js lines 717-738). -/
def getResult (cfg : Config) (p : Params) (s : EngineState) : BacktestResult :=
  { currentPositionType :=
      match s.position with
      | none => .NONE
      | some _ => .LONG
    fund := s.fund
    rsiLongPeriod := p.rsiLongPeriod
    rsiShortPeriod := p.rsiShortPeriod
    rsiLongLevel := p.rsiLongLevel
    rsiShortLevel := p.rsiShortLevel
    leverage := p.leverage
    totalTrades := s.totalTrades
    winningTrades := s.winningTrades
    losingTrades := s.losingTrades
    winRate := if s.totalTrades > 0 then (s.winningTrades : ℚ) / (s.totalTrades : ℚ) else 0
    totalPnl := s.totalPnl
    totalReturn := (s.fund - cfg.INITIAL_FUNDING) / cfg.INITIAL_FUNDING
    maxDrawdown := s.maxDrawdown
    averageHoldTimeHours := if s.totalTrades > 0 then
        s.totalHoldTimeHours / (s.totalTrades : ℚ) else 0
    tradeRecords := s.tradeRecords }

/-- One iteration's inputs in `BacktestEngine.run` (src/backtest.js lines
658-665): the current candle and the previous bar's RSI values (null when
not yet available or out of range). -/
structure Bar where
  kline : Kline
  preRsiLong : Option ℚ
  preRsiShort : Option ℚ
  deriving Repr, DecidableEq

/-- Intra-trade extreme tracking at the top of the loop body
(src/backtest.js lines 672-680). -/
def updateExtremes (s : EngineState) (k : Kline) : EngineState :=
  match s.position with
  | none => s
  | some pos => { s with position := some (bumpExtremes pos k) }

/-- Extremes update, signal computation and the two signal branches of the
loop body (src/backtest.js lines 672-690). -/
def signalPhase (cfg : Config) (p : Params) (precision : ℕ) (s : EngineState)
    (k : Kline) (preL preS : ℚ) : EngineState :=
  let s1 := updateExtremes s k
  let sig := getSignal p s1 preL preS
  let s2 := if sig = .OPEN_LONG then openLongPosition cfg p precision s1 k else s1
  match sig, s2.position with
  | .CLOSE_LONG, some pos => closeLongPosition cfg p s2 pos k
  | _, _ => s2

/-- One iteration of the `run` loop (src/backtest.js lines 658-710):
bars with a null previous RSI are skipped entirely (`continue`), a
liquidation or exceeded drawdown threshold aborts the whole run (`return
null`, embedded as `none`), and drawdown is updated only when a position is
open or the peak exceeds the initial funding. -/
def processBar (cfg : Config) (p : Params) (precision : ℕ) (s : EngineState)
    (bar : Bar) : Option EngineState :=
  match bar.preRsiLong, bar.preRsiShort with
  | some preL, some preS =>
    let s1 := signalPhase cfg p precision s bar.kline preL preS
    if checkLiquidation s1 bar.kline.lowPrice then none
    else if s1.position.isSome ∨ s1.peakFund > cfg.INITIAL_FUNDING then
      let s2 := updateDrawdown s1 bar.kline.closePrice
      if isDrawdownExceeded p s2 then none else some s2
    else some (if s1.fund > s1.peakFund then { s1 with peakFund := s1.fund } else s1)
  | _, _ => some s

/-- The `run` loop folded over the bar sequence; `none` propagates an
invalidated run. -/
def runBars (cfg : Config) (p : Params) (precision : ℕ) :
    EngineState → List Bar → Option EngineState
  | s, [] => some s
  | s, b :: bs =>
    match processBar cfg p precision s b with
    | none => none
    | some s' => runBars cfg p precision s' bs

/-- The bar sequence the loop reads: for every index `i` from `startIndex`
to the end, the candle at `i` and the RSI values at `i - 1` (out-of-range
reads are JS `undefined`, i.e. null). -/
def mkBars (klines : List Kline) (rl rs : List (Option ℚ)) (startIndex : ℕ) : List Bar :=
  (List.range klines.length).filterMap fun i =>
    if i < startIndex then none
    else (klines[i]?).map fun k =>
      { kline := k, preRsiLong := (rl[i - 1]?).join, preRsiShort := (rs[i - 1]?).join }

/-- `BacktestEngine` construction plus `run` (src/backtest.js lines
393-438 and 649-715): look up the RSI series of both periods, return null
when either is missing or empty, iterate the bars from
`max(periods) + 1`, close any remaining position at the end and build the
result. -/
def engineRun (cfg : Config) (precision : ℕ) (klines : List Kline)
    (rsiData : ℤ → Option (List (Option ℚ))) (p0 : Params) : Option BacktestResult :=
  let p := mkParams p0
  match rsiData p.rsiLongPeriod, rsiData p.rsiShortPeriod with
  | some rl, some rs =>
    if rl.isEmpty ∨ rs.isEmpty then none
    else
      let startIndex := (max p.rsiLongPeriod p.rsiShortPeriod + 1).toNat
      match runBars cfg p precision (initState cfg) (mkBars klines rl rs startIndex) with
      | none => none
      | some s => some (getResult cfg p (closePositionAtEnd cfg p klines s))
  | _, _ => none

/-- `getBacktestResult` (src/backtest.js lines 741-763): build an engine
from the shared candle and RSI caches and run it. -/
def getBacktestResult (cfg : Config) (precision : ℕ) (klines : List Kline)
    (rsiData : ℤ → Option (List (Option ℚ))) (p : Params) : Option BacktestResult :=
  engineRun cfg precision klines rsiData p

/-!
## Parameter space generator and optimizer loop
(src/backtest.js lines 799-915)
-/

/-- One per-dimension range `{min, max, step}` of the configuration. -/
structure RangeSetting where
  min : ℤ
  max : ℤ
  step : ℤ
  deriving Repr, DecidableEq

/-- The five configured parameter ranges (`CONFIG.*_SETTING`). -/
structure SpaceConfig where
  RSI_LONG_PERIOD_SETTING : RangeSetting
  RSI_SHORT_PERIOD_SETTING : RangeSetting
  RSI_LONG_LEVEL_SETTING : RangeSetting
  RSI_SHORT_LEVEL_SETTING : RangeSetting
  LEVERAGE_SETTING : RangeSetting
  deriving Repr, DecidableEq

/-- One strategy-parameter combination pushed by `getSettings`. -/
structure Setting where
  rsiLongPeriod : ℤ
  rsiShortPeriod : ℤ
  rsiLongLevel : ℤ
  rsiShortLevel : ℤ
  leverage : ℤ
  deriving Repr, DecidableEq

/-- One inclusive loop `for (v = min; v <= max; v += step)` of `getSettings`
(src/backtest.js lines 804-864); `getAddedNumber` with `digit: 0` on
integer operands is plain addition.  The JS loop never terminates for a
non-positive step, so the embedding returns the empty enumeration there;
every configured step is a positive integer.  The recursion is fueled by
`(max - min).toNat + 1`, an upper bound on the iteration count. -/
def rangeStepAux (step : ℤ) : ℕ → ℤ → ℤ → List ℤ
  | 0, _, _ => []
  | fuel + 1, lo, hi => if lo ≤ hi then lo :: rangeStepAux step fuel (lo + step) hi else []

/-- The list of values `min, min+step, ..., ≤ max`. -/
def rangeStep (lo hi step : ℤ) : List ℤ :=
  if 0 < step then rangeStepAux step ((hi - lo).toNat + 1) lo hi else []

/-- `getSettings` (src/backtest.js lines 804-864): the cartesian product of
the five inclusive ranges, nested outermost-to-innermost as leverage, long
period, short period, long level, short level. -/
def getSettings (sc : SpaceConfig) : List Setting :=
  (rangeStep sc.LEVERAGE_SETTING.min sc.LEVERAGE_SETTING.max
      sc.LEVERAGE_SETTING.step).flatMap fun leverage =>
    (rangeStep sc.RSI_LONG_PERIOD_SETTING.min sc.RSI_LONG_PERIOD_SETTING.max
        sc.RSI_LONG_PERIOD_SETTING.step).flatMap fun rsiLongPeriod =>
      (rangeStep sc.RSI_SHORT_PERIOD_SETTING.min sc.RSI_SHORT_PERIOD_SETTING.max
          sc.RSI_SHORT_PERIOD_SETTING.step).flatMap fun rsiShortPeriod =>
        (rangeStep sc.RSI_LONG_LEVEL_SETTING.min sc.RSI_LONG_LEVEL_SETTING.max
            sc.RSI_LONG_LEVEL_SETTING.step).flatMap fun rsiLongLevel =>
          (rangeStep sc.RSI_SHORT_LEVEL_SETTING.min sc.RSI_SHORT_LEVEL_SETTING.max
              sc.RSI_SHORT_LEVEL_SETTING.step).map fun rsiShortLevel =>
            { rsiLongPeriod := rsiLongPeriod
              rsiShortPeriod := rsiShortPeriod
              rsiLongLevel := rsiLongLevel
              rsiShortLevel := rsiShortLevel
              leverage := leverage }

/-- Exchange of two list entries, the body of the Fisher-Yates loop
`[shuffled[i], shuffled[j]] = [shuffled[j], shuffled[i]]` (src/backtest.js
line 872); out-of-bounds indices leave the list unchanged (they never occur
in the loop). -/
def listSwap (l : List α) (i j : ℕ) : List α :=
  if h : i < l.length ∧ j < l.length then
    (l.set i (l.get ⟨j, h.2⟩)).set j (l.get ⟨i, h.1⟩)
  else l

/-- The Fisher-Yates loop of `getRandomSettings` (src/backtest.js lines
870-873), counting `i` down from `len - 1` to `1`.  The random draw
`Math.floor(Math.random() * (i + 1))` is an arbitrary index in `[0, i]`,
modelled by an oracle `rand` reduced modulo `i + 1`. -/
def fisherYates (rand : ℕ → ℕ) : ℕ → List α → List α
  | 0, l => l
  | i + 1, l => fisherYates rand i (listSwap l (i + 1) (rand (i + 1) % (i + 2)))

/-- `getRandomSettings` (src/backtest.js lines 866-880): when a sample cap
is configured (JS truthiness: a cap of 0 is falsy and disables sampling),
shuffle a copy of the full enumeration and take the first
`min(cap, length)` entries; otherwise return the full enumeration. -/
def getRandomSettings (sc : SpaceConfig) (sampleNumber : Option ℕ) (rand : ℕ → ℕ) :
    List Setting :=
  let settings := getSettings sc
  match sampleNumber with
  | some n =>
    if n = 0 then settings
    else (fisherYates rand (settings.length - 1) settings).take (Min.min n settings.length)
  | none => settings

/-- The running best of the optimizer loop: `getBestResult` seeds it with
the literal `{fund: 0, totalReturn: -1}` (src/backtest.js line 887), the
designated no-result sentinel the main entry point later recognizes by
`fund > 0` being false. -/
inductive BestResult where
  | sentinel
  | found (r : BacktestResult)
  deriving Repr, DecidableEq

/-- The `totalReturn` field the comparison reads: `-1` on the sentinel. -/
def bestTotalReturn : BestResult → ℚ
  | .sentinel => -1
  | .found r => r.totalReturn

/-- The `fund` field the main entry point reads: `0` on the sentinel. -/
def bestFund : BestResult → ℚ
  | .sentinel => 0
  | .found r => r.fund

/-- Parameters the sweep passes for one candidate combination
(src/backtest.js lines 896-903): ledger disabled, the configured
max-drawdown threshold, and the candidate's values. -/
def settingParams (mdt : Option ℚ) (logResults : Bool) (st : Setting) : Params :=
  { rsiLongPeriod := st.rsiLongPeriod
    rsiShortPeriod := st.rsiShortPeriod
    rsiLongLevel := (st.rsiLongLevel : ℚ)
    rsiShortLevel := (st.rsiShortLevel : ℚ)
    leverage := (st.leverage : ℚ)
    shouldLogResults := logResults
    maxDrawdownThreshold := mdt }

/-- The selection loop of `getBestResult` (src/backtest.js lines 894-910):
run every candidate with the ledger disabled and the configured
max-drawdown threshold `mdt`; an invalidated (null) run is skipped, and a
valid result replaces the running best only when its `totalReturn` is
strictly greater. -/
def getBestResult (cfg : Config) (precision : ℕ) (klines : List Kline)
    (rsiData : ℤ → Option (List (Option ℚ))) (mdt : Option ℚ)
    (settings : List Setting) : BestResult :=
  settings.foldl
    (fun best st =>
      match getBacktestResult cfg precision klines rsiData (settingParams mdt false st) with
      | some r => if r.totalReturn > bestTotalReturn best then .found r else best
      | none => best)
    .sentinel

/-!
## Spec-side model for the drawdown-tracking claim

The spec states that the relative drawdown is recomputed after every
processed bar.  The source guards the recomputation (src/backtest.js lines
696-709): it only runs when a position is open or the peak exceeds the
initial funding.  The following run variant performs the update
unconditionally, exactly as the spec sentence reads. -/

/-- Modelled from the spec: one loop iteration with the drawdown
recomputed after every processed bar (no guard), mark-to-market equity
taken as fund plus margin plus unrealized PnL while a position is open. -/
def processBarSpecDD (cfg : Config) (p : Params) (precision : ℕ) (s : EngineState)
    (bar : Bar) : Option EngineState :=
  match bar.preRsiLong, bar.preRsiShort with
  | some preL, some preS =>
    let s1 := signalPhase cfg p precision s bar.kline preL preS
    if checkLiquidation s1 bar.kline.lowPrice then none
    else
      let s2 := updateDrawdown s1 bar.kline.closePrice
      if isDrawdownExceeded p s2 then none else some s2
  | _, _ => some s

/-- Modelled from the spec: the run loop with the unconditional per-bar
drawdown recomputation. -/
def runBarsSpecDD (cfg : Config) (p : Params) (precision : ℕ) :
    EngineState → List Bar → Option EngineState
  | s, [] => some s
  | s, b :: bs =>
    match processBarSpecDD cfg p precision s b with
    | none => none
    | some s' => runBarsSpecDD cfg p precision s' bs

/-- Modelled from the spec: `engineRun` with the unconditional per-bar
drawdown recomputation of claim C1. -/
def engineRunSpecDD (cfg : Config) (precision : ℕ) (klines : List Kline)
    (rsiData : ℤ → Option (List (Option ℚ))) (p0 : Params) : Option BacktestResult :=
  let p := mkParams p0
  match rsiData p.rsiLongPeriod, rsiData p.rsiShortPeriod with
  | some rl, some rs =>
    if rl.isEmpty ∨ rs.isEmpty then none
    else
      let startIndex := (max p.rsiLongPeriod p.rsiShortPeriod + 1).toNat
      match runBarsSpecDD cfg p precision (initState cfg) (mkBars klines rl rs startIndex) with
      | none => none
      | some s => some (getResult cfg p (closePositionAtEnd cfg p klines s))
  | _, _ => none

/-- Modelled from the spec: the claim's mark-to-market equity, the fund
plus (while a position is open) the committed margin and the unrealized
PnL at the bar's close price, the fund alone otherwise. -/
def specEquity (s : EngineState) (curClosePrice : ℚ) : ℚ :=
  match s.position with
  | some pos => s.fund + pos.positionFund + (curClosePrice - pos.openPrice) * pos.positionAmt
  | none => s.fund

/-- Modelled from the spec: one drawdown-tracking step on the
`(peak, maxDrawdown)` pair — raise the peak when equity exceeds it,
otherwise keep the maximum of the old maximum and the relative drawdown
`(peak - equity) / peak`. -/
def specDrawdownStep (peak maxDD equity : ℚ) : ℚ × ℚ :=
  if equity > peak then (equity, maxDD)
  else (peak, max maxDD ((peak - equity) / peak))

/-!
## Concrete scenario: one losing long trade over four hourly candles

Flat at 100 for three candles, a drop to 99 on the fourth; RSI lists are
chosen so the engine opens at candle index 2 (previous-bar long RSI 60 >
level 50) and closes at index 3 (previous-bar short RSI 20 < level 30).
-/

/-- Four-candle price history for the concrete runs. -/
def klinesC1 : List Kline :=
  [ { openPrice := 100, highPrice := 100, lowPrice := 100, closePrice := 100,
      volume := 0, openTime := 3600000, closeTime := 7199999 },
    { openPrice := 100, highPrice := 100, lowPrice := 100, closePrice := 100,
      volume := 0, openTime := 7200000, closeTime := 10799999 },
    { openPrice := 100, highPrice := 100, lowPrice := 100, closePrice := 100,
      volume := 0, openTime := 10800000, closeTime := 14399999 },
    { openPrice := 99, highPrice := 100, lowPrice := 99, closePrice := 100,
      volume := 0, openTime := 14400000, closeTime := 17999999 } ]

/-- RSI series (both periods are 1) for the concrete runs. -/
def rsiC1 : List (Option ℚ) := [none, some 60, some 20, none]

/-- RSI cache holding `rsiC1` under period 1. -/
def rsiDataC1 : ℤ → Option (List (Option ℚ)) :=
  fun q => if q = 1 then some rsiC1 else none

/-- Strategy parameters for the concrete runs: both periods 1, entry level
50, exit level 30, leverage 1, ledger disabled, no drawdown threshold. -/
def pC1 : Params :=
  { rsiLongPeriod := 1, rsiShortPeriod := 1, rsiLongLevel := 50, rsiShortLevel := 30,
    leverage := 1, shouldLogResults := false, maxDrawdownThreshold := none }

/-- The candle at index 2 of `klinesC1`. -/
def kAval : Kline :=
  { openPrice := 100, highPrice := 100, lowPrice := 100, closePrice := 100,
    volume := 0, openTime := 10800000, closeTime := 14399999 }

/-- The candle at index 3 of `klinesC1`. -/
def kBval : Kline :=
  { openPrice := 99, highPrice := 100, lowPrice := 99, closePrice := 100,
    volume := 0, openTime := 14400000, closeTime := 17999999 }

/-- The bar processed at candle index 2. -/
def barA : Bar := { kline := kAval, preRsiLong := some 60, preRsiShort := some 60 }

/-- The bar processed at candle index 3. -/
def barB : Bar := { kline := kBval, preRsiLong := some 20, preRsiShort := some 20 }

/-- The position opened at candle index 2. -/
def posAval : Position :=
  { positionAmt := 1, positionFund := 100, openTimestamp := 10800000,
    openPrice := 100, liquidationPrice := 0, positionMaxPrice := 100,
    positionMinPrice := 100 }

/-- Engine state after processing `barA`: position open, open fee paid,
drawdown 1/2000 from the fee. -/
def s1val : EngineState :=
  { fund := -(1 / 20)
    position := some posAval
    totalTrades := 0, winningTrades := 0, losingTrades := 0, totalPnl := 0
    maxDrawdown := 1 / 2000, peakFund := 100, totalHoldTimeHours := 0
    tradeRecords := [] }

/-- Engine state after processing `barB`: the losing trade closed at 99,
fund 98.9005, but `maxDrawdown` still 1/2000 because the drawdown block is
skipped (no position, peak equals initial funding). -/
def s2val : EngineState :=
  { fund := 197801 / 2000
    position := none
    totalTrades := 1, winningTrades := 0, losingTrades := 1
    totalPnl := -(2099 / 2000)
    maxDrawdown := 1 / 2000, peakFund := 100, totalHoldTimeHours := 1
    tradeRecords := [] }

/-- The state the spec's unconditional per-bar recomputation reaches after
`barB`: identical except the post-close drawdown 2199/200000 is recorded. -/
def s2specval : EngineState :=
  { fund := 197801 / 2000
    position := none
    totalTrades := 1, winningTrades := 0, losingTrades := 1
    totalPnl := -(2099 / 2000)
    maxDrawdown := 2199 / 200000, peakFund := 100, totalHoldTimeHours := 1
    tradeRecords := [] }

theorem mkBars_C1 : mkBars klinesC1 rsiC1 rsiC1 2 = [barA, barB] := by
  norm_num [mkBars, klinesC1, rsiC1, List.range_succ, barA, barB, kAval, kBval,
    List.filterMap_cons, Option.join]

theorem processBar_C1_A : processBar CONFIG pC1 3 (initState CONFIG) barA = some s1val := by
  rw [processBar]
  norm_num [barA, kAval, signalPhase, updateExtremes, bumpExtremes, getSignal, initState, CONFIG, pC1,
    openLongPosition, formatBySize, toFixedInt, checkLiquidation,
    updateDrawdown, isDrawdownExceeded, s1val, posAval]

theorem processBar_C1_B : processBar CONFIG pC1 3 s1val barB = some s2val := by
  rw [processBar]
  norm_num [barB, kBval, signalPhase, updateExtremes, bumpExtremes, getSignal, s1val, posAval, CONFIG, pC1,
    closeLongPosition, closeAt, closePnl, calculateFundingFee, logTradeResult,
    updateTradeStats, checkLiquidation, updateDrawdown, isDrawdownExceeded, s2val]
  simp
  norm_num [closeLongPosition, closeAt, closePnl, calculateFundingFee, logTradeResult,
    updateTradeStats, checkLiquidation, updateDrawdown, isDrawdownExceeded, s2val, CONFIG, pC1]

theorem processBarSpecDD_C1_A :
    processBarSpecDD CONFIG pC1 3 (initState CONFIG) barA = some s1val := by
  rw [processBarSpecDD]
  norm_num [barA, kAval, signalPhase, updateExtremes, bumpExtremes, getSignal, initState, CONFIG, pC1,
    openLongPosition, formatBySize, toFixedInt, checkLiquidation,
    updateDrawdown, isDrawdownExceeded, s1val, posAval]

theorem processBarSpecDD_C1_B :
    processBarSpecDD CONFIG pC1 3 s1val barB = some s2specval := by
  rw [processBarSpecDD]
  norm_num [barB, kBval, signalPhase, updateExtremes, bumpExtremes, getSignal, s1val, posAval, CONFIG, pC1,
    closeLongPosition, closeAt, closePnl, calculateFundingFee, logTradeResult,
    updateTradeStats, checkLiquidation, updateDrawdown, isDrawdownExceeded, s2specval]
  simp
  norm_num [closeLongPosition, closeAt, closePnl, calculateFundingFee, logTradeResult,
    updateTradeStats, checkLiquidation, updateDrawdown, isDrawdownExceeded, s2specval,
    CONFIG, pC1]

theorem engineRun_C1 :
    engineRun CONFIG 3 klinesC1 rsiDataC1 pC1 = some (getResult CONFIG pC1 s2val) := by
  have hmk : mkParams pC1 = pC1 := rfl
  have hp1 : pC1.rsiLongPeriod = 1 := rfl
  have hp2 : pC1.rsiShortPeriod = 1 := rfl
  have hne : rsiC1.isEmpty = false := by simp [rsiC1]
  have hbars : mkBars klinesC1 rsiC1 rsiC1
      ((max pC1.rsiLongPeriod pC1.rsiShortPeriod + 1).toNat) = [barA, barB] := by
    rw [hp1, hp2]
    norm_num
    exact mkBars_C1
  have hrun : runBars CONFIG pC1 3 (initState CONFIG) [barA, barB] = some s2val := by
    simp only [runBars, processBar_C1_A, processBar_C1_B]
  rw [engineRun, hmk]
  rw [show rsiDataC1 pC1.rsiLongPeriod = some rsiC1 from rfl,
      show rsiDataC1 pC1.rsiShortPeriod = some rsiC1 from rfl]
  simp only [hne, hbars, hrun]
  simp [closePositionAtEnd, s2val]

theorem engineRunSpecDD_C1 :
    engineRunSpecDD CONFIG 3 klinesC1 rsiDataC1 pC1 =
      some (getResult CONFIG pC1 s2specval) := by
  have hmk : mkParams pC1 = pC1 := rfl
  have hp1 : pC1.rsiLongPeriod = 1 := rfl
  have hp2 : pC1.rsiShortPeriod = 1 := rfl
  have hne : rsiC1.isEmpty = false := by simp [rsiC1]
  have hbars : mkBars klinesC1 rsiC1 rsiC1
      ((max pC1.rsiLongPeriod pC1.rsiShortPeriod + 1).toNat) = [barA, barB] := by
    rw [hp1, hp2]
    norm_num
    exact mkBars_C1
  have hrun : runBarsSpecDD CONFIG pC1 3 (initState CONFIG) [barA, barB] =
      some s2specval := by
    simp only [runBarsSpecDD, processBarSpecDD_C1_A, processBarSpecDD_C1_B]
  rw [engineRunSpecDD, hmk]
  rw [show rsiDataC1 pC1.rsiLongPeriod = some rsiC1 from rfl,
      show rsiDataC1 pC1.rsiShortPeriod = some rsiC1 from rfl]
  simp only [hne, hbars, hrun]
  simp [closePositionAtEnd, s2specval]

/-- C1 counterexample: on the four-candle losing-trade scenario the engine
reports `maxDrawdown = 1/2000` (the open-fee dip while the position was
open), while recomputing the relative drawdown after every processed bar,
as the claim states, yields `2199/200000` (the post-close loss): the bar
that closes the trade is skipped by the source's guard because no position
is open and the peak still equals the initial funding. -/
theorem drawdown_skip_counterexample :
    (engineRun CONFIG 3 klinesC1 rsiDataC1 pC1).map BacktestResult.maxDrawdown
      = some (1 / 2000) ∧
    (engineRunSpecDD CONFIG 3 klinesC1 rsiDataC1 pC1).map BacktestResult.maxDrawdown
      = some (2199 / 200000) ∧
    (1 / 2000 : ℚ) ≠ 2199 / 200000 := by
  refine ⟨?_, ?_, by norm_num⟩
  · rw [engineRun_C1]
    simp [getResult, s2val]
  · rw [engineRunSpecDD_C1]
    simp [getResult, s2specval]

/-- C1 (amended): `updateDrawdown` maintains the running peak of
mark-to-market equity (fund plus margin plus unrealized PnL of an open
position, fund alone otherwise) and the maximum relative drawdown
`(peak - equity)/peak`; on a processed, non-liquidating bar the run applies
it — followed by the threshold check — only when a position is open or the
peak exceeds the initial funding, and otherwise merely raises the peak to
the fund, recording no drawdown. -/
theorem drawdown_guarded_tracking (cfg : Config) (p : Params) (precision : ℕ)
    (s s1 : EngineState) (bar : Bar) (preL preS : ℚ)
    (hL : bar.preRsiLong = some preL) (hS : bar.preRsiShort = some preS)
    (hs1 : signalPhase cfg p precision s bar.kline preL preS = s1)
    (hliq : checkLiquidation s1 bar.kline.lowPrice = false) :
    (∀ (t : EngineState) (c : ℚ),
        updateDrawdown t c =
          { t with
            peakFund := (specDrawdownStep t.peakFund t.maxDrawdown (specEquity t c)).1
            maxDrawdown := (specDrawdownStep t.peakFund t.maxDrawdown (specEquity t c)).2 }) ∧
    ((s1.position.isSome ∨ s1.peakFund > cfg.INITIAL_FUNDING) →
      processBar cfg p precision s bar =
        if isDrawdownExceeded p (updateDrawdown s1 bar.kline.closePrice) then none
        else some (updateDrawdown s1 bar.kline.closePrice)) ∧
    (s1.position = none → ¬ s1.peakFund > cfg.INITIAL_FUNDING →
      processBar cfg p precision s bar =
        some { s1 with peakFund := max s1.peakFund s1.fund }) := by
  obtain ⟨k, bl, bs⟩ := bar
  simp only at hL hS hs1 hliq
  subst hL
  subst hS
  refine ⟨?_, ?_, ?_⟩
  · intro t c
    obtain ⟨tf, tp, tt, tw, tl, tpnl, tmd, tpk, th, tr⟩ := t
    cases tp with
    | none =>
      unfold updateDrawdown specDrawdownStep specEquity
      by_cases hgt : tf > tpk
      · simp [hgt]
      · simp only [if_neg hgt]
        by_cases hdd : (tpk - tf) / tpk > tmd
        · simp [hdd, max_eq_right (le_of_lt hdd)]
        · push_neg at hdd
          simp [if_neg (not_lt.mpr hdd), max_eq_left hdd]
    | some pos =>
      unfold updateDrawdown specDrawdownStep specEquity
      by_cases hgt : tf + pos.positionFund + (c - pos.openPrice) * pos.positionAmt > tpk
      · simp [hgt]
      · simp only [if_neg hgt]
        by_cases hdd : (tpk - (tf + pos.positionFund
            + (c - pos.openPrice) * pos.positionAmt)) / tpk > tmd
        · simp [hdd, max_eq_right (le_of_lt hdd)]
        · push_neg at hdd
          simp [if_neg (not_lt.mpr hdd), max_eq_left hdd]
  · intro hguard
    simp only [processBar, hs1, hliq, Bool.false_eq_true, if_false, if_pos hguard]
  · intro hpos hpeak
    have hguard : ¬ (s1.position.isSome = true ∨ s1.peakFund > cfg.INITIAL_FUNDING) := by
      simp [hpos, hpeak]
    simp only [processBar, hs1, hliq, Bool.false_eq_true, if_false, if_neg hguard]
    by_cases hf : s1.fund > s1.peakFund
    · simp [hf, max_eq_right (le_of_lt hf)]
    · push_neg at hf
      simp [not_lt.mpr hf, max_eq_left hf]

/-- C1 witness: the amended drawdown behavior instantiated at the bar that
closes the losing trade in the concrete scenario, where the guard skips the
drawdown recomputation. -/
theorem drawdown_guarded_tracking_witness :
    (barB.preRsiLong = some 20 ∧ barB.preRsiShort = some 20 ∧
      signalPhase CONFIG pC1 3 s1val barB.kline 20 20 = s2val ∧
      checkLiquidation s2val barB.kline.lowPrice = false) ∧
    ((∀ (t : EngineState) (c : ℚ),
        updateDrawdown t c =
          { t with
            peakFund := (specDrawdownStep t.peakFund t.maxDrawdown (specEquity t c)).1
            maxDrawdown := (specDrawdownStep t.peakFund t.maxDrawdown (specEquity t c)).2 }) ∧
      ((s2val.position.isSome ∨ s2val.peakFund > CONFIG.INITIAL_FUNDING) →
        processBar CONFIG pC1 3 s1val barB =
          if isDrawdownExceeded pC1 (updateDrawdown s2val barB.kline.closePrice) then none
          else some (updateDrawdown s2val barB.kline.closePrice)) ∧
      (s2val.position = none → ¬ s2val.peakFund > CONFIG.INITIAL_FUNDING →
        processBar CONFIG pC1 3 s1val barB =
          some { s2val with peakFund := max s2val.peakFund s2val.fund })) := by
  have hL : barB.preRsiLong = some 20 := rfl
  have hS : barB.preRsiShort = some 20 := rfl
  have hs1 : signalPhase CONFIG pC1 3 s1val barB.kline 20 20 = s2val := by
    norm_num [barB, kBval, signalPhase, updateExtremes, bumpExtremes, getSignal, s1val, posAval,
      CONFIG, pC1, closeLongPosition, closeAt, closePnl, calculateFundingFee,
      logTradeResult, updateTradeStats, s2val]
    simp
    norm_num [closeLongPosition, closeAt, closePnl, calculateFundingFee, logTradeResult,
      updateTradeStats, s2val, CONFIG, pC1]
  have hliq : checkLiquidation s2val barB.kline.lowPrice = false := by
    simp [checkLiquidation, s2val]
  exact ⟨⟨hL, hS, hs1, hliq⟩,
    drawdown_guarded_tracking CONFIG pC1 3 s1val s2val barB 20 20 hL hS hs1 hliq⟩

/-- Parameters with leverage 2 for the liquidation scenario. -/
def pW : Params :=
  { rsiLongPeriod := 1, rsiShortPeriod := 1, rsiLongLevel := 50, rsiShortLevel := 30,
    leverage := 2, shouldLogResults := false, maxDrawdownThreshold := none }

/-- An open leveraged position: entry 100, leverage 2, liquidation at 50. -/
def posW : Position :=
  { positionAmt := 1, positionFund := 50, openTimestamp := 10800000,
    openPrice := 100, liquidationPrice := 50, positionMaxPrice := 100,
    positionMinPrice := 100 }

/-- A candle whose low 49 breaches the liquidation price 50. -/
def kWval : Kline :=
  { openPrice := 100, highPrice := 100, lowPrice := 49, closePrice := 60,
    volume := 0, openTime := 14400000, closeTime := 17999999 }

/-- The breaching bar, with previous RSI values that trigger no exit. -/
def barW : Bar := { kline := kWval, preRsiLong := some 40, preRsiShort := some 40 }

/-- An engine state holding the open position `posW`. -/
def sW : EngineState := { s1val with position := some posW }

/-- C2: `openLongPosition` stores the liquidation price
`entryPrice * (1 - 1/leverage)` (entry price = the bar's open price), and
whenever a position is open while a processed bar is handled (the bar's
previous short RSI does not trigger the exit, so the position is not closed
at the bar's open), a low strictly below that liquidation price makes the
whole remaining run return `none` — regardless of the bars that follow and
of any statistics accumulated from prior trades. -/
theorem liquidation_invalidates_run (cfg : Config) (p : Params) (precision : ℕ)
    (s : EngineState) (pos : Position) (bar : Bar) (rest : List Bar) (preL preS : ℚ)
    (hpos : s.position = some pos)
    (hL : bar.preRsiLong = some preL) (hS : bar.preRsiShort = some preS)
    (hnoexit : ¬ preS < p.rsiShortLevel)
    (hliq : pos.liquidationPrice = pos.openPrice * (1 - 1 / p.leverage))
    (hbreach : bar.kline.lowPrice < pos.openPrice * (1 - 1 / p.leverage)) :
    (∀ (s' : EngineState) (k : Kline), ∃ q,
        (openLongPosition cfg p precision s' k).position = some q ∧
        q.openPrice = k.openPrice ∧
        q.liquidationPrice = k.openPrice * (1 - 1 / p.leverage)) ∧
    runBars cfg p precision s (bar :: rest) = none := by
  constructor
  · intro s' k
    exact ⟨_, rfl, rfl, rfl⟩
  · obtain ⟨k, bl, bs⟩ := bar
    simp only at hL hS hbreach
    subst hL
    subst hS
    obtain ⟨pos2, hux, hlp⟩ : ∃ pos2 : Position,
        updateExtremes s k = { s with position := some pos2 } ∧
        pos2.liquidationPrice = pos.liquidationPrice := by
      unfold updateExtremes
      rw [hpos]
      exact ⟨_, rfl, rfl⟩
    have hsig : getSignal p (updateExtremes s k) preL preS = .NONE := by
      rw [hux]
      unfold getSignal
      simp [hnoexit]
    have hsp : signalPhase cfg p precision s k preL preS = updateExtremes s k := by
      unfold signalPhase
      simp only [hsig]
      simp
    have hcl : checkLiquidation (updateExtremes s k) k.lowPrice = true := by
      rw [hux]
      unfold checkLiquidation
      simp only [decide_eq_true_eq]
      rw [hlp, hliq]
      exact hbreach
    simp only [runBars, processBar, hsp, hcl, if_true]

/-- C2 witness: a leveraged position (entry 100, leverage 2, liquidation
price 50) open while a bar with low 49 and no exit signal is processed
invalidates the run. -/
theorem liquidation_invalidates_run_witness :
    (sW.position = some posW ∧
      barW.preRsiLong = some 40 ∧ barW.preRsiShort = some 40 ∧
      ¬ (40 : ℚ) < pW.rsiShortLevel ∧
      posW.liquidationPrice = posW.openPrice * (1 - 1 / pW.leverage) ∧
      barW.kline.lowPrice < posW.openPrice * (1 - 1 / pW.leverage)) ∧
    ((∀ (s' : EngineState) (k : Kline), ∃ q,
        (openLongPosition CONFIG pW 3 s' k).position = some q ∧
        q.openPrice = k.openPrice ∧
        q.liquidationPrice = k.openPrice * (1 - 1 / pW.leverage)) ∧
      runBars CONFIG pW 3 sW (barW :: []) = none) := by
  refine ⟨⟨rfl, rfl, rfl, by norm_num [pW], by norm_num [posW, pW],
    by norm_num [barW, kWval, posW, pW]⟩, ?_⟩
  exact liquidation_invalidates_run CONFIG pW 3 sW posW barW [] 40 40 rfl rfl rfl
    (by norm_num [pW]) (by norm_num [posW, pW]) (by norm_num [barW, kWval, posW, pW])

/-- A position whose open timestamp is the epoch (0 milliseconds), which is
falsy in JS. -/
def posC7 : Position :=
  { positionAmt := 1, positionFund := 100, openTimestamp := 0,
    openPrice := 100, liquidationPrice := 0, positionMaxPrice := 100,
    positionMinPrice := 100 }

/-- C7 counterexample: closing at price 100 exactly one whole funding
period (8 hours) after an open at timestamp 0 yields funding fee 0 from the
source (the JS truthiness guard `!this.openTimestamp` short-circuits), while
the claim's formula `quantity*closePrice*fundingRate*floor(elapsed/period)`
gives `1*100*(1/10000)*1 = 1/100`. -/
theorem fundingFee_epoch_counterexample :
    calculateFundingFee CONFIG posC7 100 28800000 = 0 ∧
    posC7.positionAmt * 100 * CONFIG.FUNDING_RATE *
      ((⌊((28800000 - posC7.openTimestamp : ℤ) : ℚ) / (CONFIG.FUNDING_PERIOD_MS : ℚ)⌋ : ℤ) : ℚ)
      = 1 / 100 ∧
    (0 : ℚ) ≠ 1 / 100 := by
  refine ⟨by norm_num [calculateFundingFee, posC7], ?_, by norm_num⟩
  norm_num [posC7, CONFIG]

/-- C7 (amended): for every close of a position opened at a nonzero (and
chronologically earlier) timestamp, with a positive funding period, the
realized PnL equals
`(closePrice - entryPrice)*quantity - closeFee - fundingFee` with
`closeFee = quantity*closePrice*feeRate` and
`fundingFee = quantity*closePrice*fundingRate*floor(elapsed/fundingPeriod)`
(zero when less than one whole period elapsed), and the closing credits the
margin plus the PnL back to the fund; when the open timestamp is exactly 0
(or the close timestamp is 0) the source's truthiness guard forces the
funding fee to 0 instead. -/
theorem closeLongPosition_pnl (cfg : Config) (p : Params) (s : EngineState)
    (pos : Position) (k : Kline)
    (hopen : 0 < pos.openTimestamp) (hle : pos.openTimestamp ≤ k.openTime)
    (hper : 0 < cfg.FUNDING_PERIOD_MS) :
    closePnl cfg pos k.openPrice k.openTime =
      (k.openPrice - pos.openPrice) * pos.positionAmt
        - pos.positionAmt * k.openPrice * cfg.FEE
        - pos.positionAmt * k.openPrice * cfg.FUNDING_RATE *
            ((⌊((k.openTime - pos.openTimestamp : ℤ) : ℚ) / (cfg.FUNDING_PERIOD_MS : ℚ)⌋ : ℤ) : ℚ) ∧
    (k.openTime - pos.openTimestamp < cfg.FUNDING_PERIOD_MS →
      calculateFundingFee cfg pos k.openPrice k.openTime = 0) ∧
    (closeLongPosition cfg p s pos k).fund =
      s.fund + pos.positionFund + closePnl cfg pos k.openPrice k.openTime := by
  have hopen0 : pos.openTimestamp ≠ 0 := by omega
  have hclose0 : k.openTime ≠ 0 := by omega
  have hnum : (0 : ℚ) ≤ ((k.openTime - pos.openTimestamp : ℤ) : ℚ) := by
    have : (0 : ℤ) ≤ k.openTime - pos.openTimestamp := by omega
    exact_mod_cast this
  have hden : (0 : ℚ) < ((cfg.FUNDING_PERIOD_MS : ℤ) : ℚ) := by exact_mod_cast hper
  have hfl : 0 ≤ ⌊((k.openTime - pos.openTimestamp : ℤ) : ℚ) / (cfg.FUNDING_PERIOD_MS : ℚ)⌋ :=
    Int.floor_nonneg.mpr (div_nonneg hnum (le_of_lt hden))
  refine ⟨?_, ?_, ?_⟩
  · unfold closePnl calculateFundingFee
    rw [if_neg (by simp [hopen0, hclose0])]
    by_cases hz : ⌊((k.openTime - pos.openTimestamp : ℤ) : ℚ) / (cfg.FUNDING_PERIOD_MS : ℚ)⌋ ≤ 0
    · have : ⌊((k.openTime - pos.openTimestamp : ℤ) : ℚ) / (cfg.FUNDING_PERIOD_MS : ℚ)⌋ = 0 := by
        omega
      rw [if_pos hz, this]
      push_cast
      ring
    · rw [if_neg hz]
  · intro hlt
    unfold calculateFundingFee
    rw [if_neg (by simp [hopen0, hclose0])]
    have : ⌊((k.openTime - pos.openTimestamp : ℤ) : ℚ) / (cfg.FUNDING_PERIOD_MS : ℚ)⌋ = 0 := by
      have hup : ((k.openTime - pos.openTimestamp : ℤ) : ℚ) / (cfg.FUNDING_PERIOD_MS : ℚ) < 1 := by
        rw [div_lt_one hden]
        exact_mod_cast hlt
      have := Int.floor_nonneg.mpr (div_nonneg hnum (le_of_lt hden))
      have h1 : ⌊((k.openTime - pos.openTimestamp : ℤ) : ℚ) / (cfg.FUNDING_PERIOD_MS : ℚ)⌋ < 1 := by
        exact_mod_cast Int.floor_lt.mpr (by exact_mod_cast hup)
      omega
    rw [if_pos (le_of_eq this)]
  · unfold closeLongPosition closeAt updateTradeStats
    cases p.shouldLogResults <;> simp

/-- C7 witness: the amended PnL formula instantiated at the concrete close
of the losing trade in the four-candle scenario (open at 10800000, close at
14400000, one hour later: zero whole funding periods). -/
theorem closeLongPosition_pnl_witness :
    (0 < posAval.openTimestamp ∧ posAval.openTimestamp ≤ kBval.openTime ∧
      0 < CONFIG.FUNDING_PERIOD_MS) ∧
    (closePnl CONFIG posAval kBval.openPrice kBval.openTime =
      (kBval.openPrice - posAval.openPrice) * posAval.positionAmt
        - posAval.positionAmt * kBval.openPrice * CONFIG.FEE
        - posAval.positionAmt * kBval.openPrice * CONFIG.FUNDING_RATE *
            ((⌊((kBval.openTime - posAval.openTimestamp : ℤ) : ℚ)
                / (CONFIG.FUNDING_PERIOD_MS : ℚ)⌋ : ℤ) : ℚ) ∧
      (kBval.openTime - posAval.openTimestamp < CONFIG.FUNDING_PERIOD_MS →
        calculateFundingFee CONFIG posAval kBval.openPrice kBval.openTime = 0) ∧
      (closeLongPosition CONFIG pC1 s1val posAval kBval).fund =
        s1val.fund + posAval.positionFund +
          closePnl CONFIG posAval kBval.openPrice kBval.openTime) :=
  ⟨⟨by norm_num [posAval], by norm_num [posAval, kBval], by norm_num [CONFIG]⟩,
    closeLongPosition_pnl CONFIG pC1 s1val posAval kBval
      (by norm_num [posAval]) (by norm_num [posAval, kBval]) (by norm_num [CONFIG])⟩

/-- C8: the backtest engine is a pure deterministic function of its inputs:
two runs on inputs that are equal component-for-component produce equal
results.  In this embedding `getBacktestResult` is a function and the
source reads no global mutable state and draws no randomness inside
`BacktestEngine.run`, so the property is definitional. -/
theorem getBacktestResult_deterministic (cfg1 cfg2 : Config) (prec1 prec2 : ℕ)
    (kl1 kl2 : List Kline) (rd1 rd2 : ℤ → Option (List (Option ℚ)))
    (p1 p2 : Params)
    (hc : cfg1 = cfg2) (hp : prec1 = prec2) (hk : kl1 = kl2) (hr : rd1 = rd2)
    (hpp : p1 = p2) :
    getBacktestResult cfg1 prec1 kl1 rd1 p1 = getBacktestResult cfg2 prec2 kl2 rd2 p2 := by
  rw [hc, hp, hk, hr, hpp]

/-- C8 witness: determinism instantiated at the concrete four-candle run. -/
theorem getBacktestResult_deterministic_witness :
    (CONFIG = CONFIG ∧ 3 = 3 ∧ klinesC1 = klinesC1 ∧ rsiDataC1 = rsiDataC1 ∧
      pC1 = pC1) ∧
    getBacktestResult CONFIG 3 klinesC1 rsiDataC1 pC1 =
      getBacktestResult CONFIG 3 klinesC1 rsiDataC1 pC1 :=
  ⟨⟨rfl, rfl, rfl, rfl, rfl⟩,
    getBacktestResult_deterministic CONFIG CONFIG 3 3 klinesC1 klinesC1
      rsiDataC1 rsiDataC1 pC1 pC1 rfl rfl rfl rfl rfl⟩

/-- The selection fold of `getBestResult` restated over the list of valid
(non-null) results, in candidate order. -/
def bestFold (rs : List BacktestResult) (b : BestResult) : BestResult :=
  rs.foldl (fun best r => if r.totalReturn > bestTotalReturn best then .found r else best) b

theorem bestFold_cons (x : BacktestResult) (rs : List BacktestResult) (b : BestResult) :
    bestFold (x :: rs) b =
      bestFold rs (if x.totalReturn > bestTotalReturn b then .found x else b) := rfl

theorem getBestResult_eq_bestFold (cfg : Config) (precision : ℕ) (klines : List Kline)
    (rsiData : ℤ → Option (List (Option ℚ))) (mdt : Option ℚ) (settings : List Setting) :
    getBestResult cfg precision klines rsiData mdt settings =
      bestFold (settings.filterMap
        (fun st => getBacktestResult cfg precision klines rsiData (settingParams mdt false st)))
        .sentinel := by
  unfold getBestResult bestFold
  generalize BestResult.sentinel = b
  induction settings generalizing b with
  | nil => rfl
  | cons st sts ih =>
    simp only [List.foldl_cons, List.filterMap_cons]
    cases h : getBacktestResult cfg precision klines rsiData (settingParams mdt false st) with
    | none => exact ih _
    | some r => simp only [List.foldl_cons]; exact ih _

theorem bestFold_found (rs : List BacktestResult) (b : BacktestResult) :
    ∃ r, bestFold rs (.found b) = .found r := by
  induction rs generalizing b with
  | nil => exact ⟨b, rfl⟩
  | cons x rs ih =>
    rw [bestFold_cons]
    by_cases h : x.totalReturn > bestTotalReturn (.found b)
    · rw [if_pos h]; exact ih x
    · rw [if_neg h]; exact ih b

theorem bestFold_sentinel_iff (rs : List BacktestResult) :
    bestFold rs .sentinel = .sentinel ↔ ∀ r ∈ rs, r.totalReturn ≤ -1 := by
  induction rs with
  | nil => simp [bestFold]
  | cons x rs ih =>
    rw [bestFold_cons]
    have hb : bestTotalReturn .sentinel = -1 := rfl
    by_cases h : x.totalReturn > bestTotalReturn .sentinel
    · rw [if_pos h]
      constructor
      · intro hc
        obtain ⟨r, hr⟩ := bestFold_found rs x
        rw [hr] at hc
        exact absurd hc (by simp)
      · intro hall
        exfalso
        have hx := hall x (List.mem_cons_self x rs)
        rw [hb] at h
        linarith
    · rw [if_neg h, ih]
      rw [hb] at h
      push_neg at h
      constructor
      · intro hall r hr
        rcases List.mem_cons.mp hr with rfl | hr
        · exact h
        · exact hall r hr
      · intro hall r hr
        exact hall r (List.mem_cons_of_mem x hr)

theorem bestFold_found_spec (rs : List BacktestResult) :
    ∀ (b : BestResult) (r : BacktestResult), bestFold rs b = .found r →
      (b = .found r ∧ ∀ x ∈ rs, x.totalReturn ≤ r.totalReturn) ∨
      (∃ pre post, rs = pre ++ r :: post ∧ bestTotalReturn b < r.totalReturn ∧
        (∀ x ∈ pre, x.totalReturn < r.totalReturn) ∧
        (∀ x ∈ post, x.totalReturn ≤ r.totalReturn)) := by
  induction rs with
  | nil =>
    intro b r h
    left
    exact ⟨h, by simp⟩
  | cons x rs ih =>
    intro b r h
    rw [bestFold_cons] at h
    by_cases hx : x.totalReturn > bestTotalReturn b
    · rw [if_pos hx] at h
      rcases ih _ r h with ⟨hbr, hall⟩ | ⟨pre, post, hsplit, hlt, hpre, hpost⟩
      · have hxr : x = r := by
          have := hbr
          injection this
        subst hxr
        right
        exact ⟨[], rs, by simp, hx, by simp, hall⟩
      · have hxlt : x.totalReturn < r.totalReturn := by
          have : bestTotalReturn (.found x) = x.totalReturn := rfl
          rw [this] at hlt
          exact hlt
        right
        refine ⟨x :: pre, post, by rw [hsplit]; rfl, by linarith, ?_, hpost⟩
        intro y hy
        rcases List.mem_cons.mp hy with rfl | hy
        · exact hxlt
        · exact hpre y hy
    · rw [if_neg hx] at h
      push_neg at hx
      rcases ih _ r h with ⟨hbr, hall⟩ | ⟨pre, post, hsplit, hlt, hpre, hpost⟩
      · left
        refine ⟨hbr, ?_⟩
        intro y hy
        rcases List.mem_cons.mp hy with rfl | hy
        · rw [hbr] at hx
          exact hx
        · exact hall y hy
      · right
        refine ⟨x :: pre, post, by rw [hsplit]; rfl, hlt, ?_, hpost⟩
        intro y hy
        rcases List.mem_cons.mp hy with rfl | hy
        · linarith
        · exact hpre y hy

/-- C3: the optimizer loop runs every candidate with the ledger disabled,
skips invalidated (null) runs, returns the sentinel exactly when every
valid result has `totalReturn ≤ -1` (non-positive final fund) — an ordinary
value, not an exception — and otherwise returns the first-seen valid result
whose `totalReturn` strictly exceeds that of every earlier valid result and
is not exceeded by any later one (ties keep the first-seen winner). -/
theorem getBestResult_first_strict_max (cfg : Config) (precision : ℕ)
    (klines : List Kline) (rsiData : ℤ → Option (List (Option ℚ)))
    (mdt : Option ℚ) (settings : List Setting) :
    (getBestResult cfg precision klines rsiData mdt settings = .sentinel ↔
      ∀ r ∈ settings.filterMap
          (fun st => getBacktestResult cfg precision klines rsiData (settingParams mdt false st)),
        r.totalReturn ≤ -1) ∧
    (∀ r, getBestResult cfg precision klines rsiData mdt settings = .found r →
      ∃ pre post,
        settings.filterMap
          (fun st => getBacktestResult cfg precision klines rsiData (settingParams mdt false st))
          = pre ++ r :: post ∧
        -1 < r.totalReturn ∧
        (∀ x ∈ pre, x.totalReturn < r.totalReturn) ∧
        (∀ x ∈ post, x.totalReturn ≤ r.totalReturn)) := by
  rw [getBestResult_eq_bestFold]
  constructor
  · exact bestFold_sentinel_iff _
  · intro r h
    rcases bestFold_found_spec _ _ r h with ⟨hbr, _⟩ | ⟨pre, post, hsplit, hlt, hpre, hpost⟩
    · exact absurd hbr.symm (by simp)
    · have : bestTotalReturn .sentinel = -1 := rfl
      rw [this] at hlt
      exact ⟨pre, post, hsplit, hlt, hpre, hpost⟩

theorem count_set_add [DecidableEq α] (l : List α) (n : ℕ) (b : α)
    (hn : n < l.length) (a : α) :
    (l.set n b).count a + (if l.get ⟨n, hn⟩ == a then 1 else 0)
      = l.count a + (if b == a then 1 else 0) := by
  have hsplit : l = l.take n ++ l.get ⟨n, hn⟩ :: l.drop (n + 1) := by
    conv_lhs => rw [← List.take_append_drop n l, List.drop_eq_getElem_cons hn]
    rfl
  rw [List.set_eq_take_cons_drop b hn]
  conv_rhs => rw [hsplit]
  simp only [List.count_append, List.count_cons]
  split_ifs <;> omega

theorem listSwap_perm [DecidableEq α] (l : List α) (i j : ℕ) :
    (listSwap l i j).Perm l := by
  unfold listSwap
  split
  case isTrue h =>
    obtain ⟨hi, hj⟩ := h
    rw [List.perm_iff_count]
    intro a
    have hj2 : j < (l.set i (l.get ⟨j, hj⟩)).length := by simpa using hj
    have h1 := count_set_add (l.set i (l.get ⟨j, hj⟩)) j (l.get ⟨i, hi⟩) hj2 a
    have h2 := count_set_add l i (l.get ⟨j, hj⟩) hi a
    rcases eq_or_ne i j with rfl | hne
    · have hg : (l.set i (l.get ⟨i, hi⟩)).get ⟨i, hj2⟩ = l.get ⟨i, hi⟩ := by
        simp [List.get_eq_getElem, List.getElem_set_self]
      rw [hg] at h1
      split_ifs at h1 h2 <;> omega
    · have hg : (l.set i (l.get ⟨j, hj⟩)).get ⟨j, hj2⟩ = l.get ⟨j, hj⟩ := by
        simp only [List.get_eq_getElem]
        rw [List.getElem_set_ne hne]
      rw [hg] at h1
      split_ifs at h1 h2 <;> omega
  case isFalse h => exact List.Perm.refl _

theorem fisherYates_perm [DecidableEq α] (rand : ℕ → ℕ) (n : ℕ) (l : List α) :
    (fisherYates rand n l).Perm l := by
  induction n generalizing l with
  | zero => exact List.Perm.refl _
  | succ i ih =>
    unfold fisherYates
    exact (ih _).trans (listSwap_perm l (i + 1) (rand (i + 1) % (i + 2)))

theorem getRandomSettings_perm (sc : SpaceConfig) (n : ℕ) (rand : ℕ → ℕ)
    (h : (getSettings sc).length ≤ n) :
    (getRandomSettings sc (some n) rand).Perm (getSettings sc) := by
  unfold getRandomSettings
  dsimp only
  by_cases hn : n = 0
  · rw [if_pos hn]
  · rw [if_neg hn]
    have hperm := fisherYates_perm rand ((getSettings sc).length - 1) (getSettings sc)
    have hlen := hperm.length_eq
    rw [min_eq_right h,
      List.take_of_length_le (le_of_eq hlen)]
    exact hperm

theorem rangeStepAux_mem (step : ℤ) (hstep : 0 < step) :
    ∀ (fuel : ℕ) (lo hi x : ℤ), hi - lo < fuel * step →
      (x ∈ rangeStepAux step fuel lo hi ↔ ∃ k : ℕ, x = lo + k * step ∧ x ≤ hi) := by
  intro fuel
  induction fuel with
  | zero =>
    intro lo hi x hfuel
    simp only [rangeStepAux, List.not_mem_nil, false_iff]
    rintro ⟨k, rfl, hk⟩
    have hk0 : (0 : ℤ) ≤ (k : ℤ) * step := mul_nonneg (Int.ofNat_nonneg k) (le_of_lt hstep)
    simp only [Nat.cast_zero, zero_mul] at hfuel
    linarith
  | succ fuel ih =>
    intro lo hi x hfuel
    have hfuel2 : hi - lo < (fuel : ℤ) * step + step := by
      push_cast at hfuel
      linarith
    simp only [rangeStepAux]
    by_cases hle : lo ≤ hi
    · rw [if_pos hle]
      simp only [List.mem_cons]
      constructor
      · rintro (rfl | hmem)
        · exact ⟨0, by simp, hle⟩
        · obtain ⟨k, rfl, hk⟩ := (ih (lo + step) hi x (by linarith)).mp hmem
          exact ⟨k + 1, by push_cast; ring, hk⟩
      · rintro ⟨k, rfl, hk⟩
        cases k with
        | zero => left; simp
        | succ k =>
          right
          refine (ih (lo + step) hi _ (by linarith)).mpr ⟨k, by push_cast; ring, hk⟩
    · rw [if_neg hle]
      simp only [List.not_mem_nil, false_iff]
      rintro ⟨k, rfl, hk⟩
      have hk0 : (0 : ℤ) ≤ (k : ℤ) * step := mul_nonneg (Int.ofNat_nonneg k) (le_of_lt hstep)
      push_neg at hle
      linarith

theorem rangeStep_mem (lo hi step : ℤ) (hstep : 0 < step) (x : ℤ) :
    x ∈ rangeStep lo hi step ↔ ∃ k : ℕ, x = lo + k * step ∧ x ≤ hi := by
  unfold rangeStep
  rw [if_pos hstep]
  apply rangeStepAux_mem step hstep
  have h1 : hi - lo ≤ ((hi - lo).toNat : ℤ) := Int.self_le_toNat _
  have h2 : (1 : ℤ) ≤ step := hstep
  have h3 : (0 : ℤ) ≤ ((hi - lo).toNat : ℤ) := Int.ofNat_nonneg _
  push_cast
  nlinarith [mul_nonneg (by linarith : (0 : ℤ) ≤ ((hi - lo).toNat : ℤ) + 1)
    (by linarith : (0 : ℤ) ≤ step - 1)]

theorem mem_getSettings (sc : SpaceConfig) (st : Setting) :
    st ∈ getSettings sc ↔
      (st.leverage ∈ rangeStep sc.LEVERAGE_SETTING.min sc.LEVERAGE_SETTING.max
          sc.LEVERAGE_SETTING.step ∧
        st.rsiLongPeriod ∈ rangeStep sc.RSI_LONG_PERIOD_SETTING.min
          sc.RSI_LONG_PERIOD_SETTING.max sc.RSI_LONG_PERIOD_SETTING.step ∧
        st.rsiShortPeriod ∈ rangeStep sc.RSI_SHORT_PERIOD_SETTING.min
          sc.RSI_SHORT_PERIOD_SETTING.max sc.RSI_SHORT_PERIOD_SETTING.step ∧
        st.rsiLongLevel ∈ rangeStep sc.RSI_LONG_LEVEL_SETTING.min
          sc.RSI_LONG_LEVEL_SETTING.max sc.RSI_LONG_LEVEL_SETTING.step ∧
        st.rsiShortLevel ∈ rangeStep sc.RSI_SHORT_LEVEL_SETTING.min
          sc.RSI_SHORT_LEVEL_SETTING.max sc.RSI_SHORT_LEVEL_SETTING.step) := by
  obtain ⟨a, b, c, d, e⟩ := st
  simp only [getSettings, List.mem_flatMap, List.mem_map, Setting.mk.injEq]
  constructor
  · rintro ⟨lev, hlev, lp, hlp, sp, hsp, ll, hll, ⟨sl, hsl, rfl, rfl, rfl, rfl, rfl⟩⟩
    exact ⟨hlev, hlp, hsp, hll, hsl⟩
  · rintro ⟨hlev, hlp, hsp, hll, hsl⟩
    exact ⟨e, hlev, a, hlp, b, hsp, c, hll, d, hsl, rfl, rfl, rfl, rfl, rfl⟩

/-- A space configuration with a single varying dimension (leverage 1..3)
to exhibit the enumeration order concretely. -/
def scDemo : SpaceConfig :=
  { RSI_LONG_PERIOD_SETTING := { min := 5, max := 5, step := 1 }
    RSI_SHORT_PERIOD_SETTING := { min := 7, max := 7, step := 1 }
    RSI_LONG_LEVEL_SETTING := { min := 60, max := 60, step := 5 }
    RSI_SHORT_LEVEL_SETTING := { min := 40, max := 40, step := 5 }
    LEVERAGE_SETTING := { min := 1, max := 3, step := 1 } }

/-- C6: the inclusive range enumeration contains exactly the values
`min, min+step, ..., ≤ max`; on `{min:1, max:3, step:1}` it produces
exactly `[1, 2, 3]`; the settings list is the cartesian product of the five
ranges (membership characterization), enumerated with leverage as the
outermost dimension (concrete order on `scDemo`); and sampling with a cap
at least the full combination count returns a permutation of the exhaustive
enumeration (same set of combinations, in some order). -/
theorem getSettings_space (sc : SpaceConfig) :
    (∀ lo hi step x, 0 < step →
      (x ∈ rangeStep lo hi step ↔ ∃ k : ℕ, x = lo + k * step ∧ x ≤ hi)) ∧
    rangeStep 1 3 1 = [1, 2, 3] ∧
    getSettings scDemo =
      [{ rsiLongPeriod := 5, rsiShortPeriod := 7, rsiLongLevel := 60,
         rsiShortLevel := 40, leverage := 1 },
       { rsiLongPeriod := 5, rsiShortPeriod := 7, rsiLongLevel := 60,
         rsiShortLevel := 40, leverage := 2 },
       { rsiLongPeriod := 5, rsiShortPeriod := 7, rsiLongLevel := 60,
         rsiShortLevel := 40, leverage := 3 }] ∧
    (∀ st, st ∈ getSettings sc ↔
      (st.leverage ∈ rangeStep sc.LEVERAGE_SETTING.min sc.LEVERAGE_SETTING.max
          sc.LEVERAGE_SETTING.step ∧
        st.rsiLongPeriod ∈ rangeStep sc.RSI_LONG_PERIOD_SETTING.min
          sc.RSI_LONG_PERIOD_SETTING.max sc.RSI_LONG_PERIOD_SETTING.step ∧
        st.rsiShortPeriod ∈ rangeStep sc.RSI_SHORT_PERIOD_SETTING.min
          sc.RSI_SHORT_PERIOD_SETTING.max sc.RSI_SHORT_PERIOD_SETTING.step ∧
        st.rsiLongLevel ∈ rangeStep sc.RSI_LONG_LEVEL_SETTING.min
          sc.RSI_LONG_LEVEL_SETTING.max sc.RSI_LONG_LEVEL_SETTING.step ∧
        st.rsiShortLevel ∈ rangeStep sc.RSI_SHORT_LEVEL_SETTING.min
          sc.RSI_SHORT_LEVEL_SETTING.max sc.RSI_SHORT_LEVEL_SETTING.step)) ∧
    (∀ (n : ℕ) (rand : ℕ → ℕ), (getSettings sc).length ≤ n →
      (getRandomSettings sc (some n) rand).Perm (getSettings sc)) :=
  ⟨fun lo hi step x hstep => rangeStep_mem lo hi step hstep x,
    by decide,
    by decide,
    fun st => mem_getSettings sc st,
    fun n rand h => getRandomSettings_perm sc n rand h⟩

/-- C6 witness: the parameter-space properties instantiated at `scDemo`. -/
theorem getSettings_space_witness :
    (∀ lo hi step x, 0 < step →
      (x ∈ rangeStep lo hi step ↔ ∃ k : ℕ, x = lo + k * step ∧ x ≤ hi)) ∧
    rangeStep 1 3 1 = [1, 2, 3] ∧
    getSettings scDemo =
      [{ rsiLongPeriod := 5, rsiShortPeriod := 7, rsiLongLevel := 60,
         rsiShortLevel := 40, leverage := 1 },
       { rsiLongPeriod := 5, rsiShortPeriod := 7, rsiLongLevel := 60,
         rsiShortLevel := 40, leverage := 2 },
       { rsiLongPeriod := 5, rsiShortPeriod := 7, rsiLongLevel := 60,
         rsiShortLevel := 40, leverage := 3 }] ∧
    (∀ st, st ∈ getSettings scDemo ↔
      (st.leverage ∈ rangeStep scDemo.LEVERAGE_SETTING.min scDemo.LEVERAGE_SETTING.max
          scDemo.LEVERAGE_SETTING.step ∧
        st.rsiLongPeriod ∈ rangeStep scDemo.RSI_LONG_PERIOD_SETTING.min
          scDemo.RSI_LONG_PERIOD_SETTING.max scDemo.RSI_LONG_PERIOD_SETTING.step ∧
        st.rsiShortPeriod ∈ rangeStep scDemo.RSI_SHORT_PERIOD_SETTING.min
          scDemo.RSI_SHORT_PERIOD_SETTING.max scDemo.RSI_SHORT_PERIOD_SETTING.step ∧
        st.rsiLongLevel ∈ rangeStep scDemo.RSI_LONG_LEVEL_SETTING.min
          scDemo.RSI_LONG_LEVEL_SETTING.max scDemo.RSI_LONG_LEVEL_SETTING.step ∧
        st.rsiShortLevel ∈ rangeStep scDemo.RSI_SHORT_LEVEL_SETTING.min
          scDemo.RSI_SHORT_LEVEL_SETTING.max scDemo.RSI_SHORT_LEVEL_SETTING.step)) ∧
    (∀ (n : ℕ) (rand : ℕ → ℕ), (getSettings scDemo).length ≤ n →
      (getRandomSettings scDemo (some n) rand).Perm (getSettings scDemo)) :=
  getSettings_space scDemo

/-- The single candidate setting of the concrete sweep. -/
def stC1 : Setting :=
  { rsiLongPeriod := 1, rsiShortPeriod := 1, rsiLongLevel := 50,
    rsiShortLevel := 30, leverage := 1 }

/-- C3 witness: the optimizer-loop characterization instantiated at the
single-candidate sweep over the concrete four-candle run. -/
theorem getBestResult_first_strict_max_witness :
    (getBestResult CONFIG 3 klinesC1 rsiDataC1 none [stC1] = .sentinel ↔
      ∀ r ∈ [stC1].filterMap
          (fun st => getBacktestResult CONFIG 3 klinesC1 rsiDataC1 (settingParams none false st)),
        r.totalReturn ≤ -1) ∧
    (∀ r, getBestResult CONFIG 3 klinesC1 rsiDataC1 none [stC1] = .found r →
      ∃ pre post,
        [stC1].filterMap
          (fun st => getBacktestResult CONFIG 3 klinesC1 rsiDataC1 (settingParams none false st))
          = pre ++ r :: post ∧
        -1 < r.totalReturn ∧
        (∀ x ∈ pre, x.totalReturn < r.totalReturn) ∧
        (∀ x ∈ post, x.totalReturn ≤ r.totalReturn)) :=
  getBestResult_first_strict_max CONFIG 3 klinesC1 rsiDataC1 none [stC1]

theorem updateDrawdown_position (s : EngineState) (c : ℚ) :
    (updateDrawdown s c).position = s.position := by
  unfold updateDrawdown
  dsimp only
  split_ifs <;> rfl

theorem updateDrawdown_tradeRecords (s : EngineState) (c : ℚ) :
    (updateDrawdown s c).tradeRecords = s.tradeRecords := by
  unfold updateDrawdown
  dsimp only
  split_ifs <;> rfl

theorem closeAt_position (cfg : Config) (p : Params) (s : EngineState)
    (pos : Position) (cp : ℚ) (ct : ℤ) :
    (closeAt cfg p s pos cp ct).position = none := by
  unfold closeAt updateTradeStats
  cases p.shouldLogResults <;> rfl

theorem closeAt_tradeRecords (cfg : Config) (p : Params) (s : EngineState)
    (pos : Position) (cp : ℚ) (ct : ℤ) :
    (closeAt cfg p s pos cp ct).tradeRecords = s.tradeRecords ∨
    (closeAt cfg p s pos cp ct).tradeRecords =
      s.tradeRecords ++ [logTradeResult cfg p s pos cp ct (closePnl cfg pos cp ct)] := by
  unfold closeAt updateTradeStats
  cases p.shouldLogResults
  · left; rfl
  · right; rfl

/-- The timestamps every trade record carries: a record logged by `closeAt`
opens at the position's open timestamp and closes at the close timestamp. -/
theorem logTradeResult_timestamps (cfg : Config) (p : Params) (s : EngineState)
    (pos : Position) (cp : ℚ) (ct : ℤ) (pnl : ℚ) :
    (logTradeResult cfg p s pos cp ct pnl).openTimestamp = pos.openTimestamp ∧
    (logTradeResult cfg p s pos cp ct pnl).closeTimestamp = ct :=
  ⟨rfl, rfl⟩

/-- State soundness along the run: all logged records are chronological and
an open position predates all remaining bars and the final close time. -/
def stateOK (lastCT : ℤ) (bars : List Bar) (s : EngineState) : Prop :=
  (∀ t ∈ s.tradeRecords, t.openTimestamp < t.closeTimestamp) ∧
  ∀ pos, s.position = some pos →
    (∀ b ∈ bars, pos.openTimestamp < b.kline.openTime) ∧ pos.openTimestamp < lastCT

theorem signalPhase_of_none_open (cfg : Config) (p : Params) (precision : ℕ)
    (s : EngineState) (k : Kline) (preL preS : ℚ)
    (hsp : s.position = none) (hopen : preL > p.rsiLongLevel) :
    signalPhase cfg p precision s k preL preS = openLongPosition cfg p precision s k := by
  have hux : updateExtremes s k = s := by
    unfold updateExtremes
    rw [hsp]
  have hsig : getSignal p s preL preS = Signal.OPEN_LONG := by
    unfold getSignal
    rw [hsp]
    dsimp only
    rw [if_pos hopen]
  unfold signalPhase
  rw [hux]
  simp [hsig, openLongPosition]

theorem signalPhase_of_none_noopen (cfg : Config) (p : Params) (precision : ℕ)
    (s : EngineState) (k : Kline) (preL preS : ℚ)
    (hsp : s.position = none) (hopen : ¬ preL > p.rsiLongLevel) :
    signalPhase cfg p precision s k preL preS = s := by
  have hux : updateExtremes s k = s := by
    unfold updateExtremes
    rw [hsp]
  have hsig : getSignal p s preL preS = Signal.NONE := by
    unfold getSignal
    rw [hsp]
    dsimp only
    rw [if_neg hopen]
  unfold signalPhase
  rw [hux]
  simp [hsig, hsp]

theorem signalPhase_of_some_close (cfg : Config) (p : Params) (precision : ℕ)
    (s : EngineState) (k : Kline) (preL preS : ℚ) (pos : Position)
    (hsp : s.position = some pos) (hclose : preS < p.rsiShortLevel) :
    signalPhase cfg p precision s k preL preS =
      closeLongPosition cfg p { s with position := some (bumpExtremes pos k) }
        (bumpExtremes pos k) k := by
  have hux : updateExtremes s k = { s with position := some (bumpExtremes pos k) } := by
    unfold updateExtremes
    rw [hsp]
  have hsig : getSignal p ({ s with position := some (bumpExtremes pos k) }) preL preS =
      Signal.CLOSE_LONG := by
    unfold getSignal
    dsimp only
    rw [if_pos hclose]
  unfold signalPhase
  rw [hux]
  simp [hsig]

theorem signalPhase_of_some_noclose (cfg : Config) (p : Params) (precision : ℕ)
    (s : EngineState) (k : Kline) (preL preS : ℚ) (pos : Position)
    (hsp : s.position = some pos) (hclose : ¬ preS < p.rsiShortLevel) :
    signalPhase cfg p precision s k preL preS =
      { s with position := some (bumpExtremes pos k) } := by
  have hux : updateExtremes s k = { s with position := some (bumpExtremes pos k) } := by
    unfold updateExtremes
    rw [hsp]
  have hsig : getSignal p ({ s with position := some (bumpExtremes pos k) }) preL preS =
      Signal.NONE := by
    unfold getSignal
    dsimp only
    rw [if_neg hclose]
  unfold signalPhase
  rw [hux]
  simp [hsig]

theorem signalPhase_stateOK (cfg : Config) (p : Params) (precision : ℕ)
    (lastCT : ℤ) (k : Kline) (bars : List Bar) (s : EngineState) (preL preS : ℚ)
    (hrec : ∀ t ∈ s.tradeRecords, t.openTimestamp < t.closeTimestamp)
    (hpos : ∀ pos, s.position = some pos →
      pos.openTimestamp < k.openTime ∧
      (∀ b ∈ bars, pos.openTimestamp < b.kline.openTime) ∧
      pos.openTimestamp < lastCT)
    (hhead : ∀ b ∈ bars, k.openTime < b.kline.openTime)
    (hkCT : k.openTime < lastCT) :
    stateOK lastCT bars (signalPhase cfg p precision s k preL preS) := by
  cases hsp : s.position with
  | none =>
    by_cases hopen : preL > p.rsiLongLevel
    · rw [signalPhase_of_none_open cfg p precision s k preL preS hsp hopen]
      refine ⟨fun t ht => hrec t ht, ?_⟩
      intro q hq
      have : (openLongPosition cfg p precision s k).position.map Position.openTimestamp
          = some k.openTime := rfl
      rw [hq] at this
      simp at this
      rw [this]
      exact ⟨hhead, hkCT⟩
    · rw [signalPhase_of_none_noopen cfg p precision s k preL preS hsp hopen]
      refine ⟨hrec, ?_⟩
      intro q hq
      rw [hsp] at hq
      exact absurd hq (by simp)
  | some pos =>
    by_cases hclose : preS < p.rsiShortLevel
    · rw [signalPhase_of_some_close cfg p precision s k preL preS pos hsp hclose]
      unfold closeLongPosition
      constructor
      · intro t ht
        rcases closeAt_tradeRecords cfg p { s with position := some (bumpExtremes pos k) }
            (bumpExtremes pos k) k.openPrice k.openTime with hr | hr
        · rw [hr] at ht
          exact hrec t ht
        · rw [hr] at ht
          rcases List.mem_append.mp ht with ht | ht
          · exact hrec t ht
          · rcases List.mem_singleton.mp ht with rfl
            have hl := logTradeResult_timestamps cfg p
              { s with position := some (bumpExtremes pos k) }
              (bumpExtremes pos k) k.openPrice k.openTime
              (closePnl cfg (bumpExtremes pos k) k.openPrice k.openTime)
            rw [hl.1, hl.2]
            have hbts : (bumpExtremes pos k).openTimestamp = pos.openTimestamp := rfl
            rw [hbts]
            exact (hpos pos hsp).1
      · intro q hq
        rw [closeAt_position] at hq
        exact absurd hq (by simp)
    · rw [signalPhase_of_some_noclose cfg p precision s k preL preS pos hsp hclose]
      refine ⟨hrec, ?_⟩
      intro q hq
      obtain rfl : bumpExtremes pos k = q := Option.some_injective _ hq
      have hbts : (bumpExtremes pos k).openTimestamp = pos.openTimestamp := rfl
      rw [hbts]
      exact ⟨(hpos pos hsp).2.1, (hpos pos hsp).2.2⟩

theorem processBar_shape (cfg : Config) (p : Params) (precision : ℕ)
    (s : EngineState) (bar : Bar) (s' : EngineState)
    (hstep : processBar cfg p precision s bar = some s') :
    s' = s ∨
    ∃ preL preS, bar.preRsiLong = some preL ∧ bar.preRsiShort = some preS ∧
      s'.position = (signalPhase cfg p precision s bar.kline preL preS).position ∧
      s'.tradeRecords = (signalPhase cfg p precision s bar.kline preL preS).tradeRecords := by
  obtain ⟨k, bl, bs⟩ := bar
  cases bl with
  | none =>
    left
    simp only [processBar] at hstep
    exact (Option.some_injective _ hstep).symm
  | some preL =>
    cases bs with
    | none =>
      left
      simp only [processBar] at hstep
      exact (Option.some_injective _ hstep).symm
    | some preS =>
      right
      refine ⟨preL, preS, rfl, rfl, ?_⟩
      simp only [processBar] at hstep
      split_ifs at hstep
      all_goals
        first
          | exact Option.noConfusion hstep
          | (injection hstep with h
             subst h
             first
               | exact ⟨updateDrawdown_position _ _, updateDrawdown_tradeRecords _ _⟩
               | exact ⟨rfl, rfl⟩)

theorem processBar_stateOK (cfg : Config) (p : Params) (precision : ℕ)
    (lastCT : ℤ) (s : EngineState) (bar : Bar) (bars : List Bar) (s' : EngineState)
    (hhead : ∀ b ∈ bars, bar.kline.openTime < b.kline.openTime)
    (hkCT : bar.kline.openTime < lastCT)
    (hrec : ∀ t ∈ s.tradeRecords, t.openTimestamp < t.closeTimestamp)
    (hpos : ∀ pos, s.position = some pos →
      pos.openTimestamp < bar.kline.openTime ∧
      (∀ b ∈ bars, pos.openTimestamp < b.kline.openTime) ∧
      pos.openTimestamp < lastCT)
    (hstep : processBar cfg p precision s bar = some s') :
    stateOK lastCT bars s' := by
  rcases processBar_shape cfg p precision s bar s' hstep with rfl | homog
  · exact ⟨hrec, fun pos h => ⟨(hpos pos h).2.1, (hpos pos h).2.2⟩⟩
  · obtain ⟨preL, preS, hL, hS, hpos', hrec'⟩ := homog
    have hok := signalPhase_stateOK cfg p precision lastCT bar.kline bars s preL preS
      hrec hpos hhead hkCT
    constructor
    · intro t ht
      rw [hrec'] at ht
      exact hok.1 t ht
    · intro pos h
      rw [hpos'] at h
      exact hok.2 pos h

theorem runBars_stateOK (cfg : Config) (p : Params) (precision : ℕ) (lastCT : ℤ) :
    ∀ (bars : List Bar) (s s' : EngineState),
      bars.Pairwise (fun b1 b2 => b1.kline.openTime < b2.kline.openTime) →
      (∀ b ∈ bars, b.kline.openTime < lastCT) →
      (∀ t ∈ s.tradeRecords, t.openTimestamp < t.closeTimestamp) →
      (∀ pos, s.position = some pos →
        (∀ b ∈ bars, pos.openTimestamp < b.kline.openTime) ∧
        pos.openTimestamp < lastCT) →
      runBars cfg p precision s bars = some s' →
      (∀ t ∈ s'.tradeRecords, t.openTimestamp < t.closeTimestamp) ∧
      (∀ pos, s'.position = some pos → pos.openTimestamp < lastCT) := by
  intro bars
  induction bars with
  | nil =>
    intro s s' _ _ hrec hpos hrun
    obtain rfl : s = s' := Option.some_injective _ hrun
    exact ⟨hrec, fun pos h => (hpos pos h).2⟩
  | cons bar bars ih =>
    intro s s' hpw hct hrec hpos hrun
    simp only [runBars] at hrun
    cases hstep : processBar cfg p precision s bar with
    | none =>
      rw [hstep] at hrun
      exact absurd hrun (by simp)
    | some s1 =>
      rw [hstep] at hrun
      have hok := processBar_stateOK cfg p precision lastCT s bar bars s1
        (fun b hb => (List.pairwise_cons.mp hpw).1 b hb)
        (hct bar (List.mem_cons_self bar bars))
        hrec
        (fun pos h => ⟨(hpos pos h).1 bar (List.mem_cons_self bar bars),
          fun b hb => (hpos pos h).1 b (List.mem_cons_of_mem bar hb),
          (hpos pos h).2⟩)
        hstep
      exact ih s1 s' (List.pairwise_cons.mp hpw).2
        (fun b hb => hct b (List.mem_cons_of_mem bar hb))
        hok.1 hok.2 hrun

theorem mkBars_entry (klines : List Kline) (rl rs : List (Option ℚ)) (si i : ℕ) (b : Bar)
    (h : (if i < si then none
          else (klines[i]?).map fun k =>
            ({ kline := k, preRsiLong := (rl[i - 1]?).join,
               preRsiShort := (rs[i - 1]?).join } : Bar)) = some b) :
    ∃ hi : i < klines.length, b.kline = klines[i] := by
  by_cases hsi : i < si
  · rw [if_pos hsi] at h
    exact Option.noConfusion h
  · rw [if_neg hsi] at h
    obtain ⟨k, hk, hbk⟩ := Option.map_eq_some'.mp h
    obtain ⟨hi, hke⟩ := List.getElem?_eq_some_iff.mp hk
    refine ⟨hi, ?_⟩
    rw [← hbk, hke]

theorem mkBars_pairwise (klines : List Kline) (rl rs : List (Option ℚ)) (si : ℕ)
    (h : klines.Pairwise fun a b => a.openTime < b.openTime) :
    (mkBars klines rl rs si).Pairwise fun b1 b2 => b1.kline.openTime < b2.kline.openTime := by
  unfold mkBars
  rw [List.pairwise_filterMap]
  refine List.Pairwise.imp ?_ (List.pairwise_lt_range klines.length)
  intro i j hij x hx y hy
  rw [Option.mem_def] at hx hy
  obtain ⟨hi, hxk⟩ := mkBars_entry klines rl rs si i x hx
  obtain ⟨hj, hyk⟩ := mkBars_entry klines rl rs si j y hy
  rw [hxk, hyk]
  exact List.pairwise_iff_getElem.mp h i j hi hj hij

theorem mkBars_openTime_lt (klines : List Kline) (rl rs : List (Option ℚ)) (si : ℕ)
    (lastK : Kline) (hlast : klines.getLast? = some lastK)
    (hpw : klines.Pairwise fun a b => a.openTime < b.openTime)
    (hoc : ∀ k ∈ klines, k.openTime < k.closeTime) :
    ∀ b ∈ mkBars klines rl rs si, b.kline.openTime < lastK.closeTime := by
  intro b hb
  unfold mkBars at hb
  obtain ⟨i, _, hf⟩ := List.mem_filterMap.mp hb
  obtain ⟨hi, hbk⟩ := mkBars_entry klines rl rs si i b hf
  rw [List.getLast?_eq_getElem?] at hlast
  obtain ⟨hlen, hlk⟩ := List.getElem?_eq_some_iff.mp hlast
  have hole : klines[i].openTime ≤ lastK.openTime := by
    by_cases hieq : i = klines.length - 1
    · subst hieq
      rw [hlk]
    · have hilt : i < klines.length - 1 := by omega
      have := List.pairwise_iff_getElem.mp hpw i (klines.length - 1) hi hlen hilt
      rw [hlk] at this
      exact le_of_lt this
  have hcl : lastK.openTime < lastK.closeTime :=
    hoc lastK (hlk ▸ List.getElem_mem hlen)
  rw [hbk]
  omega

/-- C9: over candles strictly ascending by open time whose close time
follows their open time, (a) a bar step never replaces an open position:
if a position is open before the bar and one is open after it, it is the
same trade (same quantity, margin, entry timestamp, entry price and
liquidation price; only the tracked extremes may move) — positions are
only created from the flat state; and (b) a completed run's every trade
record closes strictly after it opens.  An invalidated run yields no
result at all by construction (`engineRun` returns `none`). -/
theorem run_invariants (cfg : Config) (p : Params) (precision : ℕ)
    (klines : List Kline) (rsiData : ℤ → Option (List (Option ℚ)))
    (hsorted : klines.Pairwise fun a b => a.openTime < b.openTime)
    (hoc : ∀ k ∈ klines, k.openTime < k.closeTime) :
    (∀ (s : EngineState) (bar : Bar) (s' : EngineState) (pos q : Position),
        s.position = some pos → processBar cfg p precision s bar = some s' →
        s'.position = some q →
        q.positionAmt = pos.positionAmt ∧ q.positionFund = pos.positionFund ∧
        q.openTimestamp = pos.openTimestamp ∧ q.openPrice = pos.openPrice ∧
        q.liquidationPrice = pos.liquidationPrice) ∧
    (∀ r, engineRun cfg precision klines rsiData p = some r →
      ∀ t ∈ r.tradeRecords, t.openTimestamp < t.closeTimestamp) := by
  constructor
  · intro s bar s' pos q hpos hstep hq
    rcases processBar_shape cfg p precision s bar s' hstep with rfl | homog
    · rw [hpos] at hq
      obtain rfl : pos = q := Option.some_injective _ hq
      exact ⟨rfl, rfl, rfl, rfl, rfl⟩
    · obtain ⟨preL, preS, _, _, hpos', _⟩ := homog
      by_cases hclose : preS < p.rsiShortLevel
      · rw [signalPhase_of_some_close cfg p precision s bar.kline preL preS pos hpos hclose]
          at hpos'
        unfold closeLongPosition at hpos'
        rw [closeAt_position] at hpos'
        rw [hpos'] at hq
        exact Option.noConfusion hq
      · rw [signalPhase_of_some_noclose cfg p precision s bar.kline preL preS pos hpos hclose]
          at hpos'
        rw [hpos'] at hq
        obtain rfl : bumpExtremes pos bar.kline = q := Option.some_injective _ hq
        exact ⟨rfl, rfl, rfl, rfl, rfl⟩
  · intro r hr
    unfold engineRun at hr
    dsimp only at hr
    cases hrl : rsiData (mkParams p).rsiLongPeriod with
    | none =>
      rw [hrl] at hr
      simp at hr
    | some rl =>
      cases hrs : rsiData (mkParams p).rsiShortPeriod with
      | none =>
        rw [hrl, hrs] at hr
        simp at hr
      | some rs =>
        rw [hrl, hrs] at hr
        dsimp only at hr
        split_ifs at hr with hemp
        cases hrun : runBars cfg (mkParams p) precision (initState cfg)
            (mkBars klines rl rs
              ((max (mkParams p).rsiLongPeriod (mkParams p).rsiShortPeriod + 1).toNat)) with
        | none =>
          rw [hrun] at hr
          exact absurd hr (by simp)
        | some sEnd =>
          rw [hrun] at hr
          dsimp only at hr
          injection hr with hre
          subst hre
          cases hlast : klines.getLast? with
          | none =>
            have hkl : klines = [] := List.getLast?_eq_none_iff.mp hlast
            subst hkl
            obtain rfl : initState cfg = sEnd := Option.some_injective _ hrun
            intro t ht
            simp [getResult, closePositionAtEnd, initState] at ht
          | some lastK =>
            have hstOK := runBars_stateOK cfg (mkParams p) precision lastK.closeTime
              (mkBars klines rl rs
                ((max (mkParams p).rsiLongPeriod (mkParams p).rsiShortPeriod + 1).toNat))
              (initState cfg) sEnd
              (mkBars_pairwise klines rl rs _ hsorted)
              (mkBars_openTime_lt klines rl rs _ lastK hlast hsorted hoc)
              (by intro t ht; simp [initState] at ht)
              (by intro pos h; simp [initState] at h)
              hrun
            intro t ht
            have hres : (getResult cfg (mkParams p)
                (closePositionAtEnd cfg (mkParams p) klines sEnd)).tradeRecords
                = (closePositionAtEnd cfg (mkParams p) klines sEnd).tradeRecords := rfl
            rw [hres] at ht
            cases hep : sEnd.position with
            | none =>
              have hcl : closePositionAtEnd cfg (mkParams p) klines sEnd = sEnd := by
                unfold closePositionAtEnd
                rw [hep]
              rw [hcl] at ht
              exact hstOK.1 t ht
            | some pos =>
              have hcl : closePositionAtEnd cfg (mkParams p) klines sEnd =
                  closeAt cfg (mkParams p) sEnd (bumpExtremes pos lastK)
                    lastK.closePrice lastK.closeTime := by
                unfold closePositionAtEnd
                rw [hep, hlast]
              rw [hcl] at ht
              rcases closeAt_tradeRecords cfg (mkParams p) sEnd (bumpExtremes pos lastK)
                  lastK.closePrice lastK.closeTime with hrc | hrc
              · rw [hrc] at ht
                exact hstOK.1 t ht
              · rw [hrc] at ht
                rcases List.mem_append.mp ht with ht | ht
                · exact hstOK.1 t ht
                · rcases List.mem_singleton.mp ht with rfl
                  have hl := logTradeResult_timestamps cfg (mkParams p) sEnd
                    (bumpExtremes pos lastK) lastK.closePrice lastK.closeTime
                    (closePnl cfg (bumpExtremes pos lastK) lastK.closePrice lastK.closeTime)
                  rw [hl.1, hl.2]
                  have hbts : (bumpExtremes pos lastK).openTimestamp = pos.openTimestamp := rfl
                  rw [hbts]
                  exact hstOK.2 pos hep

/-- C9 witness: the invariants instantiated at the concrete four-candle
run, whose candles are strictly ascending with close times after open
times. -/
theorem run_invariants_witness :
    (klinesC1.Pairwise (fun a b => a.openTime < b.openTime) ∧
      ∀ k ∈ klinesC1, k.openTime < k.closeTime) ∧
    ((∀ (s : EngineState) (bar : Bar) (s' : EngineState) (pos q : Position),
        s.position = some pos → processBar CONFIG pC1 3 s bar = some s' →
        s'.position = some q →
        q.positionAmt = pos.positionAmt ∧ q.positionFund = pos.positionFund ∧
        q.openTimestamp = pos.openTimestamp ∧ q.openPrice = pos.openPrice ∧
        q.liquidationPrice = pos.liquidationPrice) ∧
      (∀ r, engineRun CONFIG 3 klinesC1 rsiDataC1 pC1 = some r →
        ∀ t ∈ r.tradeRecords, t.openTimestamp < t.closeTimestamp)) :=
  ⟨⟨by decide, by decide⟩,
    run_invariants CONFIG pC1 3 klinesC1 rsiDataC1 (by decide) (by decide)⟩

/-!
## Ledger on/off simulation

The `shouldLogResults` flag only controls whether `closeAt` appends a
`TradeRecord`; re-running with the ledger enabled and no drawdown
threshold follows the identical state evolution except for the records
list.  The following lemmas relate a ledger-disabled run from state `s`
to a ledger-enabled run from `s` with records list `R2`.
-/

theorem signalPhase_log_toggle (cfg : Config) (precision : ℕ) (p1 p2 : Params)
    (hlev : p1.leverage = p2.leverage)
    (hlL : p1.rsiLongLevel = p2.rsiLongLevel) (hsL : p1.rsiShortLevel = p2.rsiShortLevel)
    (hlog1 : p1.shouldLogResults = false) (hlog2 : p2.shouldLogResults = true)
    (s : EngineState) (R2 : List TradeRecord) (k : Kline) (preL preS : ℚ) :
    ∃ recs2, signalPhase cfg p2 precision { s with tradeRecords := R2 } k preL preS
        = { signalPhase cfg p1 precision s k preL preS with tradeRecords := recs2 } ∧
      recs2.length + s.totalTrades
        = R2.length + (signalPhase cfg p1 precision s k preL preS).totalTrades ∧
      (signalPhase cfg p1 precision s k preL preS).tradeRecords = s.tradeRecords := by
  obtain ⟨f, po, tt, wt, lt, tp, md, pk, th, tr⟩ := s
  cases po with
  | none =>
    have hsp : (⟨f, none, tt, wt, lt, tp, md, pk, th, tr⟩ : EngineState).position = none := rfl
    have hsp2 : (⟨f, none, tt, wt, lt, tp, md, pk, th, R2⟩ : EngineState).position = none := rfl
    by_cases hopen : preL > p1.rsiLongLevel
    · have hopen2 : preL > p2.rsiLongLevel := hlL ▸ hopen
      rw [signalPhase_of_none_open cfg p1 precision _ k preL preS hsp hopen,
          signalPhase_of_none_open cfg p2 precision _ k preL preS hsp2 hopen2]
      refine ⟨R2, ?_, rfl, rfl⟩
      simp [openLongPosition, hlev]
    · have hopen2 : ¬ preL > p2.rsiLongLevel := hlL ▸ hopen
      rw [signalPhase_of_none_noopen cfg p1 precision _ k preL preS hsp hopen,
          signalPhase_of_none_noopen cfg p2 precision _ k preL preS hsp2 hopen2]
      exact ⟨R2, rfl, rfl, rfl⟩
  | some pos =>
    have hsp : (⟨f, some pos, tt, wt, lt, tp, md, pk, th, tr⟩ : EngineState).position
        = some pos := rfl
    have hsp2 : (⟨f, some pos, tt, wt, lt, tp, md, pk, th, R2⟩ : EngineState).position
        = some pos := rfl
    by_cases hclose : preS < p1.rsiShortLevel
    · have hclose2 : preS < p2.rsiShortLevel := hsL ▸ hclose
      rw [signalPhase_of_some_close cfg p1 precision _ k preL preS pos hsp hclose,
          signalPhase_of_some_close cfg p2 precision _ k preL preS pos hsp2 hclose2]
      refine ⟨R2 ++ [logTradeResult cfg p2
          (⟨f, some (bumpExtremes pos k), tt, wt, lt, tp, md, pk, th, R2⟩ : EngineState)
          (bumpExtremes pos k) k.openPrice k.openTime
          (closePnl cfg (bumpExtremes pos k) k.openPrice k.openTime)], ?_, ?_, ?_⟩
      · simp [closeLongPosition, closeAt, updateTradeStats, hlog1, hlog2]
      · simp [closeLongPosition, closeAt, updateTradeStats, hlog1]
        omega
      · simp [closeLongPosition, closeAt, updateTradeStats, hlog1]
    · have hclose2 : ¬ preS < p2.rsiShortLevel := hsL ▸ hclose
      rw [signalPhase_of_some_noclose cfg p1 precision _ k preL preS pos hsp hclose,
          signalPhase_of_some_noclose cfg p2 precision _ k preL preS pos hsp2 hclose2]
      exact ⟨R2, rfl, rfl, rfl⟩

theorem isDrawdownExceeded_of_none (p : Params) (s : EngineState)
    (h : p.maxDrawdownThreshold = none) : isDrawdownExceeded p s = false := by
  simp [isDrawdownExceeded, h]

theorem processBar_log_toggle (cfg : Config) (precision : ℕ) (p1 p2 : Params)
    (hlev : p1.leverage = p2.leverage)
    (hlL : p1.rsiLongLevel = p2.rsiLongLevel) (hsL : p1.rsiShortLevel = p2.rsiShortLevel)
    (hlog1 : p1.shouldLogResults = false) (hlog2 : p2.shouldLogResults = true)
    (hmdt2 : p2.maxDrawdownThreshold = none)
    (s : EngineState) (R2 : List TradeRecord) (bar : Bar) (s1 : EngineState)
    (hstep : processBar cfg p1 precision s bar = some s1) :
    ∃ recs2, processBar cfg p2 precision { s with tradeRecords := R2 } bar
        = some { s1 with tradeRecords := recs2 } ∧
      recs2.length + s.totalTrades = R2.length + s1.totalTrades ∧
      s1.tradeRecords = s.tradeRecords := by
  obtain ⟨k, bl, bs⟩ := bar
  cases bl with
  | none =>
    simp only [processBar] at hstep ⊢
    obtain rfl := Option.some_injective _ hstep
    exact ⟨R2, rfl, rfl, rfl⟩
  | some preL =>
    cases bs with
    | none =>
      simp only [processBar] at hstep ⊢
      obtain rfl := Option.some_injective _ hstep
      exact ⟨R2, rfl, rfl, rfl⟩
    | some preS =>
      obtain ⟨recs2, heq, hlen, hrec⟩ :=
        signalPhase_log_toggle cfg precision p1 p2 hlev hlL hsL hlog1 hlog2 s R2 k preL preS
      simp only [processBar] at hstep ⊢
      rw [heq]
      generalize ht1 : signalPhase cfg p1 precision s k preL preS = t1 at hstep hlen hrec ⊢
      obtain ⟨f1, po1, tt1, wt1, lt1, tp1, md1, pk1, th1, tr1⟩ := t1
      refine ⟨recs2, ?_, ?_, ?_⟩
      · simp only [checkLiquidation, updateDrawdown, isDrawdownExceeded_of_none p2 _ hmdt2,
          Bool.false_eq_true, if_false] at hstep ⊢
        cases po1 with
        | none =>
          simp only [Option.isSome_none, Bool.false_eq_true, false_or] at hstep ⊢
          split_ifs at hstep ⊢ <;>
            first
              | exact Option.noConfusion hstep
              | (injection hstep with h; subst h; rfl)
        | some pos =>
          simp only [Option.isSome_some, true_or, if_true] at hstep ⊢
          split_ifs at hstep ⊢ <;>
            first
              | exact Option.noConfusion hstep
              | (injection hstep with h; subst h; rfl)
      · simp only [checkLiquidation, updateDrawdown] at hstep
        cases po1 <;>
          (split_ifs at hstep <;>
            first
              | exact Option.noConfusion hstep
              | (injection hstep with h; subst h; exact hlen))
      · simp only [checkLiquidation, updateDrawdown] at hstep
        cases po1 <;>
          (split_ifs at hstep <;>
            first
              | exact Option.noConfusion hstep
              | (injection hstep with h; subst h; exact hrec))

theorem closeAt_log_toggle (cfg : Config) (p1 p2 : Params)
    (hlog1 : p1.shouldLogResults = false) (hlog2 : p2.shouldLogResults = true)
    (s : EngineState) (R2 : List TradeRecord) (pos : Position) (cp : ℚ) (ct : ℤ) :
    ∃ recs2, closeAt cfg p2 { s with tradeRecords := R2 } pos cp ct
        = { closeAt cfg p1 s pos cp ct with tradeRecords := recs2 } ∧
      recs2.length + s.totalTrades
        = R2.length + (closeAt cfg p1 s pos cp ct).totalTrades ∧
      (closeAt cfg p1 s pos cp ct).tradeRecords = s.tradeRecords := by
  obtain ⟨f, po, tt, wt, lt, tp, md, pk, th, tr⟩ := s
  refine ⟨R2 ++ [logTradeResult cfg p2
      (⟨f, po, tt, wt, lt, tp, md, pk, th, R2⟩ : EngineState) pos cp ct
      (closePnl cfg pos cp ct)], ?_, ?_, ?_⟩
  · simp [closeAt, updateTradeStats, hlog1, hlog2]
  · simp [closeAt, updateTradeStats, hlog1]
    omega
  · simp [closeAt, updateTradeStats, hlog1]

theorem closePositionAtEnd_log_toggle (cfg : Config) (p1 p2 : Params)
    (hlog1 : p1.shouldLogResults = false) (hlog2 : p2.shouldLogResults = true)
    (klines : List Kline) (s : EngineState) (R2 : List TradeRecord) :
    ∃ recs2, closePositionAtEnd cfg p2 klines { s with tradeRecords := R2 }
        = { closePositionAtEnd cfg p1 klines s with tradeRecords := recs2 } ∧
      recs2.length + s.totalTrades
        = R2.length + (closePositionAtEnd cfg p1 klines s).totalTrades ∧
      (closePositionAtEnd cfg p1 klines s).tradeRecords = s.tradeRecords := by
  obtain ⟨f, po, tt, wt, lt, tp, md, pk, th, tr⟩ := s
  cases po with
  | none => exact ⟨R2, rfl, rfl, rfl⟩
  | some pos =>
    cases hlast : klines.getLast? with
    | none =>
      refine ⟨R2, ?_, ?_, ?_⟩ <;> simp [closePositionAtEnd, hlast]
    | some lastK =>
      obtain ⟨recs2, heq, hlen, hrec⟩ := closeAt_log_toggle cfg p1 p2 hlog1 hlog2
        ⟨f, some pos, tt, wt, lt, tp, md, pk, th, tr⟩ R2 (bumpExtremes pos lastK)
        lastK.closePrice lastK.closeTime
      refine ⟨recs2, ?_, ?_, ?_⟩
      · simp only [closePositionAtEnd, hlast]
        exact heq
      · simp only [closePositionAtEnd, hlast]
        exact hlen
      · simp only [closePositionAtEnd, hlast]
        exact hrec

theorem runBars_log_toggle (cfg : Config) (precision : ℕ) (p1 p2 : Params)
    (hlev : p1.leverage = p2.leverage)
    (hlL : p1.rsiLongLevel = p2.rsiLongLevel) (hsL : p1.rsiShortLevel = p2.rsiShortLevel)
    (hlog1 : p1.shouldLogResults = false) (hlog2 : p2.shouldLogResults = true)
    (hmdt2 : p2.maxDrawdownThreshold = none) :
    ∀ (bars : List Bar) (s : EngineState) (R2 : List TradeRecord) (s1 : EngineState),
      runBars cfg p1 precision s bars = some s1 →
      ∃ recs2, runBars cfg p2 precision { s with tradeRecords := R2 } bars
          = some { s1 with tradeRecords := recs2 } ∧
        recs2.length + s.totalTrades = R2.length + s1.totalTrades ∧
        s1.tradeRecords = s.tradeRecords := by
  intro bars
  induction bars with
  | nil =>
    intro s R2 s1 hrun
    obtain rfl := Option.some_injective _ hrun
    exact ⟨R2, rfl, rfl, rfl⟩
  | cons bar bars ih =>
    intro s R2 s1 hrun
    simp only [runBars] at hrun ⊢
    cases hstep : processBar cfg p1 precision s bar with
    | none =>
      rw [hstep] at hrun
      exact absurd hrun (by simp)
    | some sm =>
      rw [hstep] at hrun
      obtain ⟨recsM, heqM, hlenM, hrecM⟩ := processBar_log_toggle cfg precision p1 p2
        hlev hlL hsL hlog1 hlog2 hmdt2 s R2 bar sm hstep
      rw [heqM]
      obtain ⟨recs2, heq2, hlen2, hrec2⟩ := ih sm recsM s1 hrun
      refine ⟨recs2, heq2, ?_, ?_⟩
      · omega
      · rw [hrec2, hrecM]

theorem engineRun_log_toggle (cfg : Config) (precision : ℕ) (klines : List Kline)
    (rsiData : ℤ → Option (List (Option ℚ))) (p1 p2 : Params)
    (hLP : p1.rsiLongPeriod = p2.rsiLongPeriod)
    (hSP : p1.rsiShortPeriod = p2.rsiShortPeriod)
    (hlL : p1.rsiLongLevel = p2.rsiLongLevel) (hsL : p1.rsiShortLevel = p2.rsiShortLevel)
    (hlev : p1.leverage = p2.leverage)
    (hlog1 : p1.shouldLogResults = false) (hlog2 : p2.shouldLogResults = true)
    (hmdt2 : p2.maxDrawdownThreshold = none)
    (r : BacktestResult) (h : engineRun cfg precision klines rsiData p1 = some r) :
    r.tradeRecords = [] ∧
    ∃ recs2, engineRun cfg precision klines rsiData p2
        = some { r with tradeRecords := recs2 } ∧
      recs2.length = r.totalTrades := by
  have eLP : (mkParams p2).rsiLongPeriod = (mkParams p1).rsiLongPeriod := hLP.symm
  have eSP : (mkParams p2).rsiShortPeriod = (mkParams p1).rsiShortPeriod := hSP.symm
  have hmdt2q : (mkParams p2).maxDrawdownThreshold = none := by
    simp [mkParams, hmdt2, truthyOrNull]
  simp only [engineRun] at h ⊢
  rw [eLP, eSP]
  cases hrl : rsiData (mkParams p1).rsiLongPeriod with
  | none =>
    rw [hrl] at h
    exact Option.noConfusion h
  | some rl =>
    cases hrs : rsiData (mkParams p1).rsiShortPeriod with
    | none =>
      rw [hrl, hrs] at h
      exact Option.noConfusion h
    | some rs =>
      rw [hrl, hrs] at h
      dsimp only at h ⊢
      by_cases hne : rl.isEmpty = true ∨ rs.isEmpty = true
      · rw [if_pos hne] at h
        exact Option.noConfusion h
      · rw [if_neg hne] at h ⊢
        cases hrun : runBars cfg (mkParams p1) precision (initState cfg)
            (mkBars klines rl rs
              ((max (mkParams p1).rsiLongPeriod (mkParams p1).rsiShortPeriod + 1).toNat)) with
        | none =>
          rw [hrun] at h
          exact Option.noConfusion h
        | some sfin =>
          rw [hrun] at h
          obtain ⟨recsB, heqB, hlenB, hrecB⟩ := runBars_log_toggle cfg precision
            (mkParams p1) (mkParams p2) hlev hlL hsL hlog1 hlog2 hmdt2q
            (mkBars klines rl rs
              ((max (mkParams p1).rsiLongPeriod (mkParams p1).rsiShortPeriod + 1).toNat))
            (initState cfg) [] sfin hrun
          have hinit : ({ initState cfg with tradeRecords := [] } : EngineState)
              = initState cfg := rfl
          rw [hinit] at heqB
          obtain ⟨recsE, heqE, hlenE, hrecE⟩ := closePositionAtEnd_log_toggle cfg
            (mkParams p1) (mkParams p2) hlog1 hlog2 klines sfin recsB
          obtain rfl : getResult cfg (mkParams p1)
              (closePositionAtEnd cfg (mkParams p1) klines sfin) = r :=
            Option.some_injective _ h
          refine ⟨?_, recsE, ?_, ?_⟩
          · exact hrecE.trans hrecB
          · rw [heqB]
            dsimp only
            rw [heqE]
            have : getResult cfg (mkParams p2)
                { closePositionAtEnd cfg (mkParams p1) klines sfin with
                  tradeRecords := recsE }
                = { getResult cfg (mkParams p1)
                      (closePositionAtEnd cfg (mkParams p1) klines sfin) with
                    tradeRecords := recsE } := by
              simp [getResult, mkParams, hLP, hSP, hlL, hsL, hlev]
            rw [this]
          · have hlenB2 : recsB.length = sfin.totalTrades := by
              simpa [initState] using hlenB
            show recsE.length
              = (closePositionAtEnd cfg (mkParams p1) klines sfin).totalTrades
            omega

/-- C10: for every candle sequence, RSI cache and candidate setting, if the
ledger-disabled sweep run (with the sweep's drawdown threshold) returns a
BacktestResult, then the detailed re-run with the ledger enabled and no
threshold returns a result identical in every field except `tradeRecords`
(in particular equal fund, totalReturn, totalTrades, winningTrades,
losingTrades, winRate, maxDrawdown and averageHoldTimeHours); the sweep
result carries an empty ledger and the re-run's ledger holds exactly one
record per counted trade. -/
theorem detailed_rerun_equiv (cfg : Config) (precision : ℕ) (klines : List Kline)
    (rsiData : ℤ → Option (List (Option ℚ))) (mdt : Option ℚ) (st : Setting)
    (r : BacktestResult)
    (hsweep : getBacktestResult cfg precision klines rsiData (settingParams mdt false st)
        = some r) :
    r.tradeRecords = [] ∧
    ∃ recs2, getBacktestResult cfg precision klines rsiData (settingParams none true st)
        = some { r with tradeRecords := recs2 } ∧
      recs2.length = r.totalTrades :=
  engineRun_log_toggle cfg precision klines rsiData
    (settingParams mdt false st) (settingParams none true st)
    rfl rfl rfl rfl rfl rfl rfl rfl r hsweep

/-- The single concrete sweep parameters coincide with `pC1`. -/
theorem settingParams_stC1 : settingParams none false stC1 = pC1 := by
  norm_num [settingParams, stC1, pC1]

/-- C10 witness: the concrete four-candle sweep run returns a result, and
the detailed re-run with the ledger enabled reproduces it up to the
`tradeRecords` field, with one record for its one counted trade. -/
theorem detailed_rerun_equiv_witness :
    (getBacktestResult CONFIG 3 klinesC1 rsiDataC1 (settingParams none false stC1)
        = some (getResult CONFIG pC1 s2val)) ∧
    ((getResult CONFIG pC1 s2val).tradeRecords = [] ∧
      ∃ recs2, getBacktestResult CONFIG 3 klinesC1 rsiDataC1 (settingParams none true stC1)
          = some { getResult CONFIG pC1 s2val with tradeRecords := recs2 } ∧
        recs2.length = (getResult CONFIG pC1 s2val).totalTrades) :=
  ⟨by rw [settingParams_stC1]; exact engineRun_C1,
    detailed_rerun_equiv CONFIG 3 klinesC1 rsiDataC1 none stC1
      (getResult CONFIG pC1 s2val)
      (by rw [settingParams_stC1]; exact engineRun_C1)⟩

end Backtest
